import Mathlib

/-!
# NeuroonOpenCore: rolling-window engine, frame codec, stream pipes, simulator

A shallow embedding of the dataflow core of NeuroonOpenCore and the properties
proved about it.

Conventions of the embedding:

* a C++ `double` is the rational number it holds (`ℚ`); an arithmetic
  operation on `double`s in `RollingSumOrMean` returns the rounding `R.fl` of its
  exact result, where `R` is a parameter of which only exactness on binary64
  values is assumed; infinities and NaN are not modelled;
* a conversion from `double` to `int` truncates, and is undefined (`none`) when
  the result does not fit a 32-bit `int`;
* machine integers are `Nat` / `Int` with explicit reduction modulo `2 ^ w`
  where the source narrows them;
* the quotient of `SignalSpec::ms_per_sample` is taken exactly: for an `int`
  rate a quotient that is not an integer lies at least `1 / rate` from one, so
  that rounding does not change its truncation;
* an operation whose C++ behaviour is undefined on some input (dereferencing
  `begin()` of an empty vector or of an empty set) returns `none` there.
-/

namespace NeuroonOpenCore

/-! ## RollingAlgorithms.cpp -/

/-- Position of the current window in the enclosing scan (`StepType`). -/
inductive StepType where
  | START
  | STEP
  | END
  deriving DecidableEq, Repr

/-- Modelled from the spec: `RollWindow`, declared in `RollingAlgorithms.h`
(missing).  `RollingAlgorithms.cpp` reads nothing of it but `window.length()`,
the configured window length (spec 4.5). -/
structure RollWindow where
  length : Nat
  deriving DecidableEq, Repr

/-- Truncation toward zero: the integer that the conversion `double -> int`
yields when it fits the type `int`. -/
def truncToInt (q : ℚ) : ℤ :=
  if 0 ≤ q then ⌊q⌋ else ⌈q⌉

/-- The cast `(int)` applied to a `size_t`: reduction modulo `2 ^ 32` read as a
two's-complement 32-bit value. -/
def toInt32 (n : Nat) : ℤ :=
  if n % 2 ^ 32 < 2 ^ 31 then ((n % 2 ^ 32 : Nat) : ℤ) else ((n % 2 ^ 32 : Nat) : ℤ) - 2 ^ 32

/-- The number is a finite binary64 value (a C++ `double`): `m * 2 ^ e` with a
significand `|m| < 2 ^ 53` and an exponent `-1074 ≤ e ≤ 971`. -/
def IsBinary64 (q : ℚ) : Prop :=
  ∃ m e : ℤ, |m| < 2 ^ 53 ∧ -1074 ≤ e ∧ e ≤ 971 ∧ q = (m : ℚ) * (2 : ℚ) ^ e

/-- The rounding of binary64 arithmetic: an operation on `double`s returns
`fl` of its exact result.  Nothing is assumed of `fl` but that it leaves a
result that is a binary64 value as it is; overflow to an infinity and NaN are
not modelled. -/
structure Rounding where
  fl : ℚ → ℚ
  fl_exact : ∀ q, IsBinary64 q → fl q = q

/-- The rounding that leaves every result as it is.  It agrees with binary64
wherever the exact result is a binary64 value, and serves to run the code on
such inputs. -/
def Rounding.exact : Rounding :=
  { fl := fun q => q, fl_exact := fun _ _ => rfl }

/-- The value is within the range of a 32-bit `int`. -/
def InIntRange (q : ℚ) : Prop :=
  -(2 : ℚ) ^ 31 ≤ q ∧ q < (2 : ℚ) ^ 31

/-- Conversion `double -> int`: the fractional part is discarded; the behaviour
is undefined, here `none`, when the truncated value does not fit a 32-bit
`int`. -/
def doubleToInt (q : ℚ) : Option ℤ :=
  if -(2 : ℤ) ^ 31 ≤ truncToInt q ∧ truncToInt q < (2 : ℤ) ^ 31 then some (truncToInt q)
  else none

/-- Instance of `std::accumulate(first, last, init)` with `init` of type `int`
over a range of `double`: every iteration evaluates `init = init + *first`; the
`int` is converted to `double`, the sum is a rounded `double` addition, and the
result is converted back to `int`. -/
def accumulateInt (R : Rounding) (v : List ℚ) (init : ℤ) : Option ℤ :=
  v.foldlM (fun acc x => doubleToInt (R.fl ((acc : ℚ) + x))) init

/-! ### RollingApply -/

/-- State of `RollingApply`: the caller-supplied function `_apply_fun`. -/
structure RollingApply where
  _apply_fun : List ℚ → ℚ

/-- Body of `RollingApply::init(n, window)`: empty. -/
def RollingApply.init (self : RollingApply) (_n : Nat) (_window : RollWindow) : RollingApply :=
  self

/-- Body of `RollingApply::step(v, type)`: `return _apply_fun(v);`. -/
def RollingApply.step (self : RollingApply) (v : List ℚ) (_type : StepType) :
    RollingApply × ℚ :=
  (self, self._apply_fun v)

/-! ### RollingPriority -/

/-- State of `RollingPriority`: the members that `init` and `step` read and
write.  Their types are declared in `RollingAlgorithms.h` (missing); following
the spec (4.5), `_set` is an ordered multiset of in-window values, kept here as
an ascending list. -/
structure RollingPriority where
  _windows_length : Nat
  _set : List ℚ
  _prev_last : ℚ
  deriving DecidableEq, Repr

/-- Modelled from the spec: insertion of one value into the ordered multiset
(`_set.insert(x)`); the container type is declared in the missing header. -/
def msInsert (x : ℚ) (s : List ℚ) : List ℚ :=
  List.orderedInsert (· ≤ ·) x s

/-- Modelled from the spec: range insertion `_set.insert(v.begin(), v.end())`
into the ordered multiset. -/
def msInsertRange (s : List ℚ) (v : List ℚ) : List ℚ :=
  v.foldl (fun acc x => msInsert x acc) s

/-- Modelled from the spec: erasure by value, `_set.erase(key)`; an ordered
multiset removes every element equal to `key`. -/
def msErase (s : List ℚ) (key : ℚ) : List ℚ :=
  s.filter (fun x => decide (x ≠ key))

/-- A freshly constructed `RollingPriority`: empty set. -/
def RollingPriority.new : RollingPriority :=
  { _windows_length := 0, _set := [], _prev_last := 0 }

/-- Body of `RollingPriority::init(n, window)`. -/
def RollingPriority.init (self : RollingPriority) (_n : Nat) (window : RollWindow) :
    RollingPriority :=
  { self with _windows_length := window.length }

/-- Body of `RollingPriority::step(v, type)`.  The result is `none` when `v` is
empty or when the set is empty at `*_set.begin()`. -/
def RollingPriority.step (self : RollingPriority) (v : List ℚ) (type : StepType) :
    Option (RollingPriority × ℚ) :=
  match v.head?, v.getLast? with
  | some first, some last =>
    let s1 : RollingPriority :=
      match type with
      | .START =>
        { self with _set := msInsertRange self._set v, _prev_last := first }
      | .END | .STEP =>
        let s0 : RollingPriority :=
          if self._set.length = self._windows_length then
            { self with _set := msErase self._set self._prev_last, _prev_last := first }
          else self
        { s0 with _set := msInsert last s0._set }
    match s1._set.head? with
    | some m => some (s1, m)
    | none => none
  | _, _ => none

/-! ### RollingSumOrMean -/

/-- Mode of `RollingSumOrMean` (`RollingSumOrMean::Type`). -/
inductive SumOrMeanType where
  | SUM
  | MEAN
  deriving DecidableEq, Repr

/-- State of `RollingSumOrMean`: the members read and written by `step`.  Their
types are declared in `RollingAlgorithms.h` (missing); `_sum`, the running sum,
and `_prev_last` are taken to be `double` like the samples and the result
(spec 4.5, 9), `_prev_win_length` a `size_t`. -/
structure RollingSumOrMean where
  _type : SumOrMeanType
  _sum : ℚ
  _prev_last : ℚ
  _prev_win_length : Nat
  deriving DecidableEq, Repr

/-- Body of `RollingSumOrMean::init(n, window)`: empty. -/
def RollingSumOrMean.init (self : RollingSumOrMean) (_n : Nat) (_window : RollWindow) :
    RollingSumOrMean :=
  self

/-- Body of `RollingSumOrMean::step(v, type)`, every operation on `double`s
rounded by `R`.  The result is `none` when `v` is empty (`*(v.begin())`) and
when a conversion to `int` in the START branch is undefined. -/
def RollingSumOrMean.step (self : RollingSumOrMean) (R : Rounding) (v : List ℚ)
    (type : StepType) : Option (RollingSumOrMean × ℚ) :=
  match v.head?, v.getLast? with
  | some first, some last =>
    let s1 : Option RollingSumOrMean :=
      match type with
      | .START =>
        match accumulateInt R v 0 with
        | some acc => some { self with _sum := (acc : ℚ), _prev_last := first }
        | none => none
      | .END | .STEP =>
        let d : ℤ := toInt32 v.length - toInt32 self._prev_win_length
        let sum1 : ℚ := if d ≥ 0 then R.fl (self._sum + last) else self._sum
        let sum2 : ℚ := if d ≤ 0 then R.fl (sum1 - self._prev_last) else sum1
        some { self with _sum := sum2, _prev_last := first }
    match s1 with
    | some s1 =>
      let s2 : RollingSumOrMean := { s1 with _prev_win_length := v.length }
      some (s2, if s2._type = SumOrMeanType.MEAN
                  then R.fl (s2._sum / R.fl (v.length : ℚ)) else s2._sum)
    | none => none
  | _, _ => none

/-- Naive recomputation of the window sum. -/
def naiveSum (v : List ℚ) : ℚ := v.sum

/-- Naive recomputation of the window mean. -/
def naiveMean (v : List ℚ) : ℚ := v.sum / (v.length : ℚ)

/-- The `k`-th window of a scan of `xs` with window length `W`: the `W`
consecutive samples that start at index `k`. -/
def scanWindow (W : Nat) (xs : List ℚ) (k : Nat) : List ℚ :=
  (xs.drop k).take W

/-- Drives `RollingPriority` over a scan: `step(START)` on window `0`, then
`step(STEP)` on the windows `1, ..., k`; the state and the output of the last of
these steps. -/
def RollingPriority.scan (self : RollingPriority) (W : Nat) (xs : List ℚ) :
    Nat → Option (RollingPriority × ℚ)
  | 0 => self.step (scanWindow W xs 0) StepType.START
  | k + 1 =>
    match RollingPriority.scan self W xs k with
    | some (st, _) => st.step (scanWindow W xs (k + 1)) StepType.STEP
    | none => none

/-! ## NeuroonSignalStreamApi.cpp -/

/-- The operations of `OnlinePresentationAlgorithm` that the API calls.  The
class is declared in `OnlinePresentationAlgorithm.h`; its construction from the
callback sink and its `activate()` / `deactivate()` are taken as parameters.
`P` is the state of one presentation algorithm object. -/
structure PresentationOps (P : Type) where
  create : Nat → P
  activate : P → P
  deactivate : P → P

/-- One algorithm registered with the daemon: the `OnlineStagingAlgorithm`
built over the logging sink and the sink of the staging callback (a function
pointer, kept as its address), or an `OnlinePresentationAlgorithm`. -/
inductive StreamingAlgorithm (P : Type) where
  | staging (staging_callback : Nat)
  | presentation (alg : P)

/-- The members of `AlgCoreDaemon` that the API reaches. -/
structure AlgCoreDaemon (P : Type) where
  _processing_in_progress : Bool
  _stream_algorithms : List (StreamingAlgorithm P)

/-- Modelled from the spec: `AlgCoreDaemon::add_streaming_algorithms(saup)`,
declared in `AlgCoreDaemon.h`, body missing.  Registration is append-only
(spec 4.7): the algorithm is appended to `_stream_algorithms`, the daemon taking
ownership. -/
def AlgCoreDaemon.add_streaming_algorithms {P : Type} (self : AlgCoreDaemon P)
    (saup : StreamingAlgorithm P) : AlgCoreDaemon P :=
  { self with _stream_algorithms := self._stream_algorithms ++ [saup] }

/-- The struct `NeuroonSignalProcessingState`.  `_online_presentation` is a raw
pointer into the daemon's algorithms: `none` is `nullptr`, `some i` points to
the algorithm at position `i` of `_daemon._stream_algorithms`. -/
structure NeuroonSignalProcessingState (P : Type) where
  _daemon : AlgCoreDaemon P
  _online_presentation : Option Nat

/-- Call of a member function through `_online_presentation`: the pointee, when
it is a presentation algorithm, is replaced by `f` of it. -/
def NeuroonSignalProcessingState.onPresentation {P : Type}
    (data : NeuroonSignalProcessingState P) (i : Nat) (f : P → P) :
    NeuroonSignalProcessingState P :=
  { data with
    _daemon := { data._daemon with
      _stream_algorithms := data._daemon._stream_algorithms.modify
        (fun a => match a with
          | StreamingAlgorithm.presentation p => StreamingAlgorithm.presentation (f p)
          | StreamingAlgorithm.staging c => StreamingAlgorithm.staging c) i } }

/-- Body of `initialize_neuroon_alg_core(staging_callback, sq_callback,
presentation_callback)`.  Callbacks are function pointers, given by their
address; `reinterpret_cast<long>(presentation_callback) != 0` tests the address
against null. -/
def initialize_neuroon_alg_core {P : Type} (ops : PresentationOps P)
    (staging_callback _sq_callback presentation_callback : Nat) :
    NeuroonSignalProcessingState P :=
  let data : NeuroonSignalProcessingState P :=
    { _daemon := { _processing_in_progress := false, _stream_algorithms := [] },
      _online_presentation := none }
  let online_alg : StreamingAlgorithm P := StreamingAlgorithm.staging staging_callback
  let data : NeuroonSignalProcessingState P :=
    { data with _daemon := data._daemon.add_streaming_algorithms online_alg }
  if presentation_callback ≠ 0 then
    let presentation_alg : P := ops.create presentation_callback
    let alg_ptr : StreamingAlgorithm P := StreamingAlgorithm.presentation presentation_alg
    { _daemon := data._daemon.add_streaming_algorithms alg_ptr,
      _online_presentation := some data._daemon._stream_algorithms.length }
  else data

/-- Body of `start_presentation(data)`. -/
def start_presentation {P : Type} (ops : PresentationOps P)
    (data : NeuroonSignalProcessingState P) : NeuroonSignalProcessingState P × Bool :=
  match data._online_presentation with
  | none => (data, false)
  | some i => (data.onPresentation i ops.activate, true)

/-- Body of `stop_presentation(data)`. -/
def stop_presentation {P : Type} (ops : PresentationOps P)
    (data : NeuroonSignalProcessingState P) : NeuroonSignalProcessingState P × Bool :=
  match data._online_presentation with
  | none => (data, false)
  | some i => (data.onPresentation i ops.deactivate, true)

/-- A presentation algorithm reduced to its activation flag, used to run the
API on a concrete instance. -/
def flagPresentation : PresentationOps Bool :=
  { create := fun _ => false, activate := fun _ => true, deactivate := fun _ => false }

/-! ## Frame codec (`EegFrame`, `PatFrame`) -/

/-- Modelled from the spec: `NeuroonFrameBytes::ByteOrder`, the byte order of
one decode call (spec 4.1).  Missing: the header that declares the frame
classes; the tests name the two values `LE` and `BE`. -/
inductive ByteOrder where
  | LE
  | BE
  deriving DecidableEq, Repr

/-- Modelled from the spec: the declared fixed width of both frame kinds, the
`L = 20` of the test. -/
def frameWidth : Nat := 20

/-- Modelled from the spec: interpretation of a field's own byte span as an
unsigned number, most-significant-byte-first (`BE`) or
least-significant-byte-first (`LE`) (spec 4.1). -/
def readUnsigned (order : ByteOrder) (span : List Nat) : Nat :=
  match order with
  | ByteOrder.BE => span.foldl (fun acc b => acc * 256 + b) 0
  | ByteOrder.LE => span.foldr (fun b acc => b + 256 * acc) 0

/-- Modelled from the spec: the `width` bytes of an unsigned number in the given
byte order, the inverse of `readUnsigned` on spans of that width. -/
def writeUnsigned (order : ByteOrder) (width n : Nat) : List Nat :=
  match order with
  | ByteOrder.LE => (List.range width).map (fun i => n / 256 ^ i % 256)
  | ByteOrder.BE => ((List.range width).map (fun i => n / 256 ^ i % 256)).reverse

/-- Modelled from the spec: a `w`-bit pattern read as a signed two's-complement
value (`std::int16_t`, `std::int32_t`, `std::int8_t` fields). -/
def toSigned (w n : Nat) : ℤ :=
  if n < 2 ^ (w - 1) then (n : ℤ) else (n : ℤ) - 2 ^ w

/-- Modelled from the spec: the `w`-bit pattern of a signed value. -/
def fromSigned (w : Nat) (z : ℤ) : Nat :=
  (z % 2 ^ w).toNat

/-- The byte span of `width` bytes at offset `off`. -/
def byteSpan (bytes : List Nat) (off width : Nat) : List Nat :=
  (bytes.drop off).take width

/-- Modelled from the spec: the decoded EEG frame (spec 3, 6): a 32-bit
timestamp and `EegFrame::Length = 8` signed 16-bit samples. -/
structure EegFrame where
  timestamp : Nat
  signal : List ℤ
  deriving DecidableEq, Repr

/-- Modelled from the spec: the three signed 16-bit accelerometer axes. -/
structure AccelAxes where
  x : ℤ
  y : ℤ
  z : ℤ
  deriving DecidableEq, Repr

/-- Modelled from the spec: the decoded PAT frame (spec 3, 6): timestamp, signed
32-bit reading `ir_led`, accelerometer axes, two signed 8-bit temperature
readings, and the reserved payload at offsets 8..11, kept verbatim. -/
structure PatFrame where
  timestamp : Nat
  ir_led : ℤ
  reserved : List Nat
  accel_axes : AccelAxes
  temperature : List ℤ
  deriving DecidableEq, Repr

/-- Modelled from the spec: `EegFrame::from_bytes_array(bytes, size, order)`
(spec 4.1, 6).  Missing: the implementation of the frame codec, of which only
the test `frame_from_bytes_tests` is present.  Input shorter than the declared
width is rejected (spec 7). -/
def EegFrame.from_bytes_array (bytes : List Nat) (order : ByteOrder) : Option EegFrame :=
  if bytes.length < frameWidth then none
  else some
    { timestamp := readUnsigned order (byteSpan bytes 0 4),
      signal := (List.range 8).map
        (fun i => toSigned 16 (readUnsigned order (byteSpan bytes (4 + 2 * i) 2))) }

/-- Modelled from the spec: `EegFrame::to_bytes(out)` (spec 4.1): the encoder,
missing like the decoder.  `order` is the byte order the frame was decoded
with. -/
def EegFrame.to_bytes (f : EegFrame) (order : ByteOrder) : List Nat :=
  writeUnsigned order 4 f.timestamp ++
    (f.signal.map (fun s => writeUnsigned order 2 (fromSigned 16 s))).flatten

/-- Modelled from the spec: `PatFrame::from_bytes_array(bytes, size, order)`
(spec 4.1, 6), missing like the EEG decoder.  Input shorter than the declared
width is rejected (spec 7). -/
def PatFrame.from_bytes_array (bytes : List Nat) (order : ByteOrder) : Option PatFrame :=
  if bytes.length < frameWidth then none
  else some
    { timestamp := readUnsigned order (byteSpan bytes 0 4),
      ir_led := toSigned 32 (readUnsigned order (byteSpan bytes 4 4)),
      reserved := byteSpan bytes 8 4,
      accel_axes :=
        { x := toSigned 16 (readUnsigned order (byteSpan bytes 12 2)),
          y := toSigned 16 (readUnsigned order (byteSpan bytes 14 2)),
          z := toSigned 16 (readUnsigned order (byteSpan bytes 16 2)) },
      temperature := (byteSpan bytes 18 2).map (fun b => toSigned 8 b) }

/-- Modelled from the spec: `PatFrame::to_bytes(out)` (spec 4.1): the encoder,
missing like the decoder.  `order` is the byte order the frame was decoded
with; the reserved span is written back as it was read. -/
def PatFrame.to_bytes (f : PatFrame) (order : ByteOrder) : List Nat :=
  writeUnsigned order 4 f.timestamp ++
    writeUnsigned order 4 (fromSigned 32 f.ir_led) ++
    f.reserved ++
    writeUnsigned order 2 (fromSigned 16 f.accel_axes.x) ++
    writeUnsigned order 2 (fromSigned 16 f.accel_axes.y) ++
    writeUnsigned order 2 (fromSigned 16 f.accel_axes.z) ++
    f.temperature.map (fun t => fromSigned 8 t)

/-- The 20-byte vector of `frame_from_bytes_tests`. -/
def testBytes : List Nat :=
  [0x01, 0x23, 0x45, 0x67, 0x89, 0xAB, 0xAB, 0x89, 0xCD, 0xEF,
   0xEF, 0xCD, 0x01, 0x23, 0x45, 0x67, 0x89, 0xAB, 0xAB, 0x89]

/-- The layout table of spec 6 read literally: the value of the `width`-byte
span at `off`, byte `j` of the span weighing `256 ^ (width - 1 - j)` in
big-endian order and `256 ^ j` in little-endian order. -/
def spanValue (order : ByteOrder) (bytes : List Nat) (off width : Nat) : Nat :=
  ((List.range width).map (fun j =>
    bytes.getD (off + j) 0 *
      256 ^ (match order with
        | ByteOrder.BE => width - 1 - j
        | ByteOrder.LE => j))).sum

/-- A signed `w`-bit field `z` holds the bit pattern `n`: `z` is in the signed
range and congruent to `n` modulo `2 ^ w`. -/
def IsSignedValue (w : Nat) (z : ℤ) (n : Nat) : Prop :=
  -(2 ^ (w - 1) : ℤ) ≤ z ∧ z < 2 ^ (w - 1) ∧ (z - (n : ℤ)) % 2 ^ w = 0

/-! ## Stream pipe (`FrameStreamPipe`) -/

/-- Modelled from the spec: `FrameStreamPipe<T>` (spec 3, 4.3).  Missing:
`FrameStreamPipe.h`, of which only the tests are present.  `source` holds the
frames the source can still produce, next one first.  `sink` is the weak
reference to the sink: `none` once the sink has been released, `some log` while
it is alive, `log` being the frames it has consumed, oldest first. -/
structure FrameStreamPipe (α : Type) where
  source : List α
  sink : Option (List α)
  deriving DecidableEq, Repr

/-- Modelled from the spec: a pipe bound to a source that can produce `frames`
and to a live sink that has consumed nothing yet. -/
def FrameStreamPipe.new {α : Type} (frames : List α) : FrameStreamPipe α :=
  { source := frames, sink := some [] }

/-- Modelled from the spec: the lifecycle states of a pipe (spec 4.3). -/
inductive PipeState where
  | Active
  | Depleted
  | Broken
  deriving DecidableEq, Repr

/-- Modelled from the spec: the lifecycle state of a pipe (spec 4.3).  The pipe
is in exactly one state: `Broken` once its sink is gone, otherwise `Depleted`
once its source is exhausted, otherwise `Active`.  The state is read off the
source and the sink reference, as the test `SimpleFrameStreamPipe` requires: it
finds the pipe depleted right after the last frame has been passed, and broken
right after the sink has been released, with no further step in either case.
A depleted pipe whose sink is then released is therefore `Broken` and no longer
`Depleted`: the test requires `isBroken()` there and spec 8 excludes a pipe that
is both, so that `Depleted` is final only while the sink is alive.  The test does
not read `isDepleted()` after the release. -/
def FrameStreamPipe.state {α : Type} (p : FrameStreamPipe α) : PipeState :=
  match p.sink with
  | none => PipeState.Broken
  | some _ => if p.source.isEmpty then PipeState.Depleted else PipeState.Active

/-- Modelled from the spec: `isDepleted()` exposes the state `Depleted`
(spec 4.3). -/
def FrameStreamPipe.isDepleted {α : Type} (p : FrameStreamPipe α) : Bool :=
  decide (p.state = PipeState.Depleted)

/-- Modelled from the spec: `isBroken()` exposes the state `Broken`
(spec 4.3). -/
def FrameStreamPipe.isBroken {α : Type} (p : FrameStreamPipe α) : Bool :=
  decide (p.state = PipeState.Broken)

/-- Modelled from the spec: `step()` of spec 4.3 (`passNextFrameWithTimestamp` in
the tests): nothing happens when the sink is gone; otherwise the next value is
pulled from the source and, unless the source is exhausted, delivered to the
sink. -/
def FrameStreamPipe.step {α : Type} (p : FrameStreamPipe α) : FrameStreamPipe α :=
  match p.sink with
  | none => p
  | some log =>
    match p.source with
    | [] => p
    | f :: rest => { source := rest, sink := some (log ++ [f]) }

/-- Modelled from the spec: the owner of the sink releases it (`sink_sp = nullptr`
in the test); the pipe's weak reference expires. -/
def FrameStreamPipe.releaseSink {α : Type} (p : FrameStreamPipe α) : FrameStreamPipe α :=
  { p with sink := none }

/-- What can happen to a pipe: it is stepped, or its sink is released. -/
inductive PipeEvent where
  | step
  | releaseSink
  deriving DecidableEq, Repr

/-- The pipe after one event. -/
def FrameStreamPipe.apply {α : Type} (p : FrameStreamPipe α) : PipeEvent → FrameStreamPipe α
  | PipeEvent.step => p.step
  | PipeEvent.releaseSink => p.releaseSink

/-- The pipe after a sequence of events, first event first. -/
def FrameStreamPipe.run {α : Type} (p : FrameStreamPipe α) (events : List PipeEvent) :
    FrameStreamPipe α :=
  events.foldl FrameStreamPipe.apply p

/-- Modelled from the spec: the frames of an `EegFramesSource` over a column
holding the integers `0 .. n - 1`: full frames of 8 samples only, frame `i`
holding `8 i, ..., 8 i + 7` (spec 8, concrete scenario).  A frame is given by
its samples. -/
def csvFrames (n : Nat) : List (List ℤ) :=
  (List.range (n / 8)).map (fun i => (List.range 8).map (fun j => ((8 * i + j : Nat) : ℤ)))

/-! ## Virtual-time simulator (`SignalSimulator`) -/

/-- Modelled from the spec: one pipe registered with the simulator (spec 4.4).
Missing: `SignalSimulator.h` and its implementation, of which only the tests are
present.  The pipe's source and sink are named by their position in the
simulator's stores, so that pipes may share a source or a sink as the tests do;
`next_due` is the pipe's next-due virtual timestamp. -/
structure StreamingPipe where
  source : Nat
  sink : Nat
  interval_ms : Nat
  next_due : Nat
  deriving DecidableEq, Repr

/-- Modelled from the spec: the simulator with the sources and sinks its pipes
are bound to.  `time_ms` is the logical clock, `pipes` the registered pipes in
registration order.  `steps` records every step the simulator makes a live pipe
take, as the pair of the virtual time and the pipe's registration index, oldest
first. -/
structure SignalSimulator (α : Type) where
  time_ms : Nat
  sources : List (List α)
  sinks : List (Option (List α))
  pipes : List StreamingPipe
  steps : List (Nat × Nat)
  deriving DecidableEq, Repr

/-- Modelled from the spec: a simulator at session start over the given sources
and sinks, with no pipe registered. -/
def SignalSimulator.new {α : Type} (sources : List (List α)) (sinks : List (Option (List α))) :
    SignalSimulator α :=
  { time_ms := 0, sources := sources, sinks := sinks, pipes := [], steps := [] }

/-- Modelled from the spec: `add_streaming_pipe(pipe, interval_ms)` for the pipe
from source `source` to sink `sink`; its next-due timestamp is initialised to
`interval_ms` from session start (spec 4.4). -/
def SignalSimulator.add_streaming_pipe {α : Type} (s : SignalSimulator α)
    (source sink interval_ms : Nat) : SignalSimulator α :=
  { s with pipes := s.pipes ++
      [{ source := source, sink := sink, interval_ms := interval_ms, next_due := interval_ms }] }

/-- The pipe registered as `p`, with the present state of its source and sink. -/
def SignalSimulator.pipeOf {α : Type} (s : SignalSimulator α) (p : StreamingPipe) :
    FrameStreamPipe α :=
  { source := s.sources.getD p.source [], sink := s.sinks.getD p.sink none }

/-- Modelled from the spec: the simulator reaches pipe `p` at virtual time `t`.
A pipe whose next-due timestamp is at most `t` is stepped once, unless it is
depleted or broken, in which case it is skipped, and its due timestamp is
advanced by its interval (spec 4.4).  `acc.pipes` are the pipes already reached
at `t`. -/
def SignalSimulator.visit {α : Type} (t : Nat) (acc : SignalSimulator α) (p : StreamingPipe) :
    SignalSimulator α :=
  if p.next_due ≤ t then
    if (acc.pipeOf p).isBroken || (acc.pipeOf p).isDepleted then
      { acc with pipes := acc.pipes ++ [{ p with next_due := p.next_due + p.interval_ms }] }
    else
      { acc with
        sources := acc.sources.set p.source (acc.pipeOf p).step.source,
        sinks := acc.sinks.set p.sink (acc.pipeOf p).step.sink,
        pipes := acc.pipes ++ [{ p with next_due := p.next_due + p.interval_ms }],
        steps := acc.steps ++ [(t, acc.pipes.length)] }
  else
    { acc with pipes := acc.pipes ++ [p] }

/-- Modelled from the spec: the logical clock advances by one millisecond and
the pipes due at the new time are stepped in registration order (spec 4.4,
ordering guarantee).  Advancing millisecond by millisecond steps the pipes in
increasing virtual time, as the test `CsvSimTwoEegPipeSingleSource_instant`
observes on two pipes that share a source. -/
def SignalSimulator.tick {α : Type} (s : SignalSimulator α) : SignalSimulator α :=
  s.pipes.foldl (SignalSimulator.visit (s.time_ms + 1))
    { s with time_ms := s.time_ms + 1, pipes := [] }

/-- Every registered pipe is depleted or broken. -/
def SignalSimulator.allDone {α : Type} (s : SignalSimulator α) : Bool :=
  s.pipes.all (fun p => (s.pipeOf p).isBroken || (s.pipeOf p).isDepleted)

/-- The clock advances until every pipe is depleted or broken, for at most
`fuel` milliseconds. -/
def SignalSimulator.drain {α : Type} : Nat → SignalSimulator α → SignalSimulator α
  | 0, s => s
  | fuel + 1, s => if s.allDone then s else SignalSimulator.drain fuel s.tick

/-- The fuel handed to the drain: one more than the number of frames left in
the sources, times one more than the sum over the pipes of the time to their
next due timestamp and of their interval. -/
def SignalSimulator.drainBound {α : Type} (s : SignalSimulator α) : Nat :=
  ((s.sources.map List.length).sum + 1) *
    ((s.pipes.map (fun p => (p.next_due - s.time_ms) + p.interval_ms)).sum + 1)

/-- Modelled from the spec: `pass_time(ms_to_simulate, 0)`, the instant mode of
spec 4.4 (the real-time mode differs by blocking the caller only).  The logical
clock advances by `ms_to_simulate`.  With `ms_to_simulate = 0` the call is the
request of the tests, `sim.pass_time(0, 0)`, to pass the rest of the frames:
virtual time runs on until every pipe is depleted or broken. -/
def SignalSimulator.pass_time {α : Type} (s : SignalSimulator α) (ms_to_simulate : Nat) :
    SignalSimulator α :=
  if ms_to_simulate = 0 then SignalSimulator.drain s.drainBound s
  else Nat.iterate SignalSimulator.tick ms_to_simulate s

/-- Two pipes registered at the intervals `I` and `2 I`, the first from source
`s0` to its own sink, the second from source `s1` to its own sink. -/
def twoPipeSimulator {α : Type} (I : Nat) (s0 s1 : List α) : SignalSimulator α :=
  ((SignalSimulator.new [s0, s1] [some [], some []]).add_streaming_pipe 0 0 I).add_streaming_pipe
    1 1 (2 * I)

/-- The cadence of spec 8 for pipes registered at the given intervals: at every
millisecond `t = 1, ..., D`, in registration order, the pipes whose interval
divides `t`; each entry is the pair of `t` and the registration index. -/
def cadence (intervals : List Nat) (D : Nat) : List (Nat × Nat) :=
  ((List.range D).map (fun t =>
    (intervals.enum.filter (fun e => decide ((t + 1) % e.2 = 0))).map
      (fun e => (t + 1, e.1)))).flatten

/-- The number of steps that the record `steps` holds for the pipe of
registration index `i`. -/
def stepCount (steps : List (Nat × Nat)) (i : Nat) : Nat :=
  (steps.filter (fun e => decide (e.2 = i))).length

/-- The set-up of the test `CsvSimTwoEegPipeSingleSink_instant`: the sources over
`0 .. 249` and `0 .. 499`, both pipes at the EEG emission interval of 64 ms into
one sink. -/
def simTwoPipesSingleSink : SignalSimulator (List ℤ) :=
  ((SignalSimulator.new [csvFrames 250, csvFrames 500] [some []]).add_streaming_pipe
    0 0 64).add_streaming_pipe 1 0 64

/-- The set-up of the test `CsvSimTwoEegPipeSingleSource_instant`: one source over
`0 .. 249` shared by a pipe at 32 ms into a counting sink and a pipe at 64 ms
into a summing sink. -/
def simTwoPipesSingleSource : SignalSimulator (List ℤ) :=
  ((SignalSimulator.new [csvFrames 250] [some [], some []]).add_streaming_pipe
    0 0 32).add_streaming_pipe 0 1 64

/-- The state that `twoPipeSimulator I s0 s1` is expected to be in after `D`
milliseconds: each pipe has moved the first `D / interval` frames of its source
to its sink, is next due at the first multiple of its interval after `D`, and
the steps taken follow the cadence. -/
def twoPipeState {α : Type} (I : Nat) (s0 s1 : List α) (D : Nat) : SignalSimulator α :=
  { time_ms := D,
    sources := [s0.drop (D / I), s1.drop (D / (2 * I))],
    sinks := [some (s0.take (D / I)), some (s1.take (D / (2 * I)))],
    pipes := [{ source := 0, sink := 0, interval_ms := I, next_due := (D / I + 1) * I },
              { source := 1, sink := 1, interval_ms := 2 * I,
                next_due := (D / (2 * I) + 1) * (2 * I) }],
    steps := cadence [I, 2 * I] D }

/-- What the tests read off a simulator: the number of frames each sink has
consumed, the number of steps each of the first two pipes has taken, and
whether each pipe is depleted. -/
def SignalSimulator.observe {α : Type} (s : SignalSimulator α) :
    List (Option Nat) × (Nat × Nat) × List Bool :=
  (s.sinks.map (fun o => o.map List.length),
    (stepCount s.steps 0, stepCount s.steps 1),
    s.pipes.map (fun p => (s.pipeOf p).isDepleted))

/-! ### Scans of `RollingSumOrMean` -/

/-- The truncating integer accumulation from the integer `acc`, in exact
arithmetic: each sample in turn is added to the integer reached so far and the
sum is truncated to an integer. -/
def truncatingSumFrom : ℤ → List ℚ → ℤ
  | acc, [] => acc
  | acc, x :: xs => truncatingSumFrom (truncToInt ((acc : ℚ) + x)) xs

/-- The truncating integer accumulation of a window from the seed `0`. -/
def truncatingSum (v : List ℚ) : ℤ :=
  truncatingSumFrom 0 v

/-- The accumulation of `v` from the integer `acc` meets no rounding and no
overflow: every sum of the integer reached so far and the next sample is a
binary64 value, and its truncation fits a 32-bit `int`. -/
def AccumulatesExactly : ℤ → List ℚ → Prop
  | _, [] => True
  | acc, x :: xs =>
    IsBinary64 ((acc : ℚ) + x) ∧ InIntRange (truncToInt ((acc : ℚ) + x)) ∧
      AccumulatesExactly (truncToInt ((acc : ℚ) + x)) xs

/-- Drives `RollingSumOrMean` through a sequence of calls `step(v, type)`, first
call first; the final state and the outputs of the calls in order, or `none`
when one of the calls has no defined result. -/
def RollingSumOrMean.run (self : RollingSumOrMean) (R : Rounding) :
    List (List ℚ × StepType) → Option (RollingSumOrMean × List ℚ)
  | [] => some (self, [])
  | (v, type) :: rest =>
    match self.step R v type with
    | none => none
    | some (st, out) =>
      match RollingSumOrMean.run st R rest with
      | none => none
      | some (st', outs) => some (st', out :: outs)

/-- The window `next` follows the window `prev` in a scan: it is `prev` with one
sample appended (grow), `prev` without its first sample and with one sample
appended (slide), or `prev` without its first sample, and not empty (shrink). -/
def IsWindowMove (prev next : List ℚ) : Prop :=
  (∃ x, next = prev ++ [x]) ∨ (∃ x, next = prev.tail ++ [x]) ∨
    (next = prev.tail ∧ next ≠ [])

/-- The calls `rest` continue a scan whose current window is `prev`: each is
made with `STEP` or `END` on a window that follows the previous one. -/
def IsScan : List ℚ → List (List ℚ × StepType) → Prop
  | _, [] => True
  | prev, (v, type) :: rest =>
    (type = StepType.STEP ∨ type = StepType.END) ∧ IsWindowMove prev v ∧ IsScan v rest

/-- Naive recomputation of the output over the window: its sum in SUM mode; in
MEAN mode its sum divided by its length, a division of `double`s rounded by
`R`. -/
def naiveOutput (R : Rounding) (type : SumOrMeanType) (v : List ℚ) : ℚ :=
  match type with
  | SumOrMeanType.SUM => naiveSum v
  | SumOrMeanType.MEAN => R.fl (naiveMean v)

/-- A scan of four windows over the samples `1, 2, 3, 4`: `[1, 2]`, then a grow,
a slide and a shrink, the last call made with `END`. -/
def sampleScan : List (List ℚ × StepType) :=
  [([1, 2], StepType.START), ([1, 2, 3], StepType.STEP), ([2, 3, 4], StepType.STEP),
   ([3, 4], StepType.END)]

/-! ## SignalTypes.h -/

/-- Source of a signal in the mask (`enum SignalOrigin`). -/
inductive SignalOrigin where
  | EEG
  | ACCELEROMETER
  | IR_LED
  | RED_LED
  | TEMPERATURE
  deriving DecidableEq, Repr

/-- The class `SignalSpec`: the sampling rate, an `int` in Hz, and the origin of
the signal. -/
structure SignalSpec where
  _sampling_rate : ℤ
  _signal_origin : SignalOrigin
  deriving DecidableEq, Repr

/-- The constructor `SignalSpec(signal_origin, sampling_rate)`. -/
def SignalSpec.new (signal_origin : SignalOrigin) (sampling_rate : ℤ) : SignalSpec :=
  { _sampling_rate := sampling_rate, _signal_origin := signal_origin }

/-- Body of `SignalSpec::sampling_rate()`. -/
def SignalSpec.sampling_rate (self : SignalSpec) : ℤ :=
  self._sampling_rate

/-- Body of `SignalSpec::ms_per_sample()`:
`(int)(1000.0 / this->sampling_rate())`, a division of `double`s whose result is
converted to `int`. -/
def SignalSpec.ms_per_sample (self : SignalSpec) : ℤ :=
  truncToInt ((1000 : ℚ) / (self.sampling_rate : ℚ))

/-! ## Theorems -/

/-! ### RollingSumOrMean: the START seed -/

theorem truncToInt_of_unit_interval (q : ℚ) (h0 : 0 ≤ q) (h1 : q < 1) : truncToInt q = 0 := by
  unfold truncToInt
  rw [if_pos h0, Int.floor_eq_iff]
  exact ⟨by simpa using h0, by simpa using h1⟩

theorem truncToInt_intCast (z : ℤ) : truncToInt (z : ℚ) = z := by
  unfold truncToInt
  split_ifs
  · exact Int.floor_intCast z
  · exact Int.ceil_intCast z

theorem truncToInt_of_nonneg (q : ℚ) (h : 0 ≤ q) : truncToInt q = ⌊q⌋ := by
  unfold truncToInt
  rw [if_pos h]

theorem isBinary64_intCast (z : ℤ) (h : |z| < 2 ^ 53) : IsBinary64 (z : ℚ) :=
  ⟨z, 0, h, by norm_num, by norm_num, by simp⟩

theorem isBinary64_half : IsBinary64 (1 / 2 : ℚ) :=
  ⟨1, -1, by norm_num, by norm_num, by norm_num, by norm_num⟩

theorem isBinary64_natCast (n : Nat) (h : n < 2 ^ 53) : IsBinary64 (n : ℚ) := by
  have := isBinary64_intCast (n : ℤ) (by rw [abs_of_nonneg (by positivity)]; exact_mod_cast h)
  simpa using this

theorem doubleToInt_of_inIntRange (q : ℚ) (h : InIntRange ((truncToInt q : ℤ) : ℚ)) :
    doubleToInt q = some (truncToInt q) := by
  unfold doubleToInt
  rw [if_pos]
  obtain ⟨h1, h2⟩ := h
  exact ⟨by exact_mod_cast h1, by exact_mod_cast h2⟩

theorem accumulateInt_of_accumulatesExactly (R : Rounding) (v : List ℚ) (acc : ℤ)
    (h : AccumulatesExactly acc v) :
    accumulateInt R v acc = some (truncatingSumFrom acc v) := by
  unfold accumulateInt
  induction v generalizing acc with
  | nil => rfl
  | cons x xs ih =>
    obtain ⟨hb, hr, hrest⟩ := h
    rw [List.foldlM_cons, R.fl_exact _ hb, doubleToInt_of_inIntRange _ hr]
    exact ih _ hrest

theorem RollingSumOrMean_step_START (R : Rounding) (self : RollingSumOrMean) (x : ℚ)
    (xs : List ℚ) (a : ℤ) (ha : accumulateInt R (x :: xs) 0 = some a) :
    self.step R (x :: xs) StepType.START =
      some ({ self with _sum := (a : ℚ), _prev_last := x,
                        _prev_win_length := (x :: xs).length },
            if self._type = SumOrMeanType.MEAN
              then R.fl ((a : ℚ) / R.fl (((x :: xs).length : Nat) : ℚ))
              else (a : ℚ)) := by
  have hl : ∃ l, (x :: xs).getLast? = some l :=
    ⟨(x :: xs).getLast (List.cons_ne_nil x xs), List.getLast?_eq_getLast _ _⟩
  obtain ⟨l, hl⟩ := hl
  simp only [RollingSumOrMean.step, List.head?_cons, hl, ha]

theorem accumulatesExactly_of_unit_interval (v : List ℚ)
    (h : ∀ x ∈ v, IsBinary64 x ∧ 0 ≤ x ∧ x < 1) : AccumulatesExactly 0 v := by
  induction v with
  | nil => trivial
  | cons x xs ih =>
    obtain ⟨hb, h0, h1⟩ := h x (List.mem_cons_self x xs)
    have ht : truncToInt (((0 : ℤ) : ℚ) + x) = 0 :=
      truncToInt_of_unit_interval _ (by simpa using h0) (by simpa using h1)
    refine ⟨by simpa using hb, ?_, ?_⟩
    · rw [ht]; norm_num [InIntRange]
    · rw [ht]; exact ih (fun y hy => h y (List.mem_cons_of_mem x hy))

theorem truncatingSumFrom_of_nonneg (v : List ℚ) (acc : ℤ) (hacc : 0 ≤ acc)
    (h : ∀ x ∈ v, 0 ≤ x) :
    truncatingSumFrom acc v = acc + (v.map (fun (x : ℚ) => ⌊x⌋)).sum := by
  induction v generalizing acc with
  | nil => simp [truncatingSumFrom]
  | cons x xs ih =>
    have hx : 0 ≤ x := h x (List.mem_cons_self x xs)
    have hsum : (0 : ℚ) ≤ (acc : ℚ) + x := add_nonneg (by exact_mod_cast hacc) hx
    have ht : truncToInt ((acc : ℚ) + x) = acc + ⌊x⌋ := by
      rw [truncToInt_of_nonneg _ hsum, Int.floor_int_add]
    have hfl : 0 ≤ ⌊x⌋ := Int.floor_nonneg.mpr hx
    rw [truncatingSumFrom, ht, ih _ (by omega) (fun y hy => h y (List.mem_cons_of_mem x hy)),
      List.map_cons, List.sum_cons]
    omega

theorem floor_sum_lt_sum (v : List ℚ) (h : ∃ x ∈ v, ((⌊x⌋ : ℤ) : ℚ) ≠ x) :
    (((v.map (fun (x : ℚ) => ⌊x⌋)).sum : ℤ) : ℚ) < v.sum := by
  have hle : ∀ w : List ℚ, (((w.map (fun (x : ℚ) => ⌊x⌋)).sum : ℤ) : ℚ) ≤ w.sum := by
    intro w
    induction w with
    | nil => simp
    | cons y ys ih =>
      simp only [List.map_cons, List.sum_cons, Int.cast_add]
      exact add_le_add (Int.floor_le y) ih
  induction v with
  | nil => obtain ⟨x, hx, _⟩ := h; simp at hx
  | cons y ys ih =>
    simp only [List.map_cons, List.sum_cons, Int.cast_add]
    obtain ⟨x, hx, hne⟩ := h
    rcases List.mem_cons.mp hx with rfl | hx'
    · exact add_lt_add_of_lt_of_le (lt_of_le_of_ne (Int.floor_le x) hne) (hle ys)
    · exact add_lt_add_of_le_of_lt (Int.floor_le y) (ih ⟨x, hx', hne⟩)

/-- C1 (the code evaluated at the failing input): on the window `[0.5, 0.5]`
presented with `START`, `RollingSumOrMean::step` returns `0` in SUM mode and `0`
in MEAN mode, whatever the earlier state and the rounding, while the naive
recomputation over the window gives the sum `1` and the mean `0.5`. -/
theorem RollingSumOrMean_START_not_naive (R : Rounding) (s p : ℚ) (n : Nat) :
    ((RollingSumOrMean.mk SumOrMeanType.SUM s p n).step R [1/2, 1/2] StepType.START).map
        Prod.snd = some 0 ∧
      naiveSum [1/2, 1/2] = 1 ∧
      ((RollingSumOrMean.mk SumOrMeanType.MEAN s p n).step R [1/2, 1/2] StepType.START).map
        Prod.snd = some 0 ∧
      naiveMean [1/2, 1/2] = 1/2 := by
  have hex : AccumulatesExactly 0 [1/2, 1/2] :=
    accumulatesExactly_of_unit_interval _ (by
      intro x hx
      simp only [List.mem_cons, List.mem_singleton, List.not_mem_nil, or_false, or_self] at hx
      subst hx
      exact ⟨isBinary64_half, by norm_num, by norm_num⟩)
  have hacc : accumulateInt R [1/2, 1/2] 0 = some 0 := by
    rw [accumulateInt_of_accumulatesExactly R _ _ hex]
    have : truncatingSumFrom 0 [1/2, 1/2] = 0 := by decide!
    rw [this]
  have h2 : R.fl (((([1/2, 1/2] : List ℚ).length : Nat) : ℚ)) = 2 := by
    have := R.fl_exact _ (isBinary64_natCast 2 (by norm_num))
    simpa using this
  have h0 : R.fl 0 = 0 := by
    have := R.fl_exact _ (isBinary64_natCast 0 (by norm_num))
    simpa using this
  refine ⟨?_, ?_, ?_, ?_⟩
  · rw [RollingSumOrMean_step_START R _ _ _ 0 hacc]; simp
  · norm_num [naiveSum]
  · rw [RollingSumOrMean_step_START R _ _ _ 0 hacc, h2]; simp [h0]
  · norm_num [naiveMean]

theorem doubleToInt_inIntRange (q : ℚ) (a : ℤ) (h : doubleToInt q = some a) :
    InIntRange (a : ℚ) := by
  unfold doubleToInt at h
  split_ifs at h with hr
  simp only [Option.some.injEq] at h
  subst h
  exact ⟨by exact_mod_cast hr.1, by exact_mod_cast hr.2⟩

theorem accumulateInt_inIntRange (R : Rounding) (v : List ℚ) (init a : ℤ)
    (hinit : InIntRange (init : ℚ)) (h : accumulateInt R v init = some a) :
    InIntRange (a : ℚ) := by
  unfold accumulateInt at h
  induction v generalizing init with
  | nil =>
    simp only [List.foldlM_nil, pure, Option.some.injEq] at h
    subst h
    exact hinit
  | cons x xs ih =>
    rw [List.foldlM_cons] at h
    cases hd : doubleToInt (R.fl ((init : ℚ) + x)) with
    | none => rw [hd] at h; simp at h
    | some b =>
      rw [hd] at h
      exact ih b (doubleToInt_inIntRange _ _ hd) h

/-- C10: on `step(v, START)` in SUM mode the running sum of `RollingSumOrMean` is
accumulated from the `int` seed `0`, so that the output, whenever it is defined,
is an integer within the range of `int`.  On a window whose accumulation meets
no rounding and no overflow it is the truncating integer accumulation, each
partial sum being truncated to an integer before the next sample is added.  For
non-negative samples this is the sum of the integer parts of the samples,
strictly less than the exact sum as soon as one sample has a fractional part;
the output is `0` when every sample is a `double` in `[0, 1)`. -/
theorem RollingSumOrMean_START_integer_seed (R : Rounding) (self : RollingSumOrMean)
    (v : List ℚ) (hv : v ≠ []) (hsum : self._type = SumOrMeanType.SUM) :
    (∀ out, (self.step R v StepType.START).map Prod.snd = some out →
        ∃ z : ℤ, out = (z : ℚ) ∧ InIntRange out) ∧
      (AccumulatesExactly 0 v →
        (self.step R v StepType.START).map Prod.snd = some ((truncatingSum v : ℤ) : ℚ)) ∧
      ((∀ x ∈ v, 0 ≤ x) → truncatingSum v = (v.map (fun (x : ℚ) => ⌊x⌋)).sum) ∧
      ((∀ x ∈ v, 0 ≤ x) → (∃ x ∈ v, ((⌊x⌋ : ℤ) : ℚ) ≠ x) →
        ((truncatingSum v : ℤ) : ℚ) < naiveSum v) ∧
      ((∀ x ∈ v, IsBinary64 x ∧ 0 ≤ x ∧ x < 1) →
        (self.step R v StepType.START).map Prod.snd = some 0) := by
  have hnonneg : (∀ x ∈ v, 0 ≤ x) → truncatingSum v = (v.map (fun (x : ℚ) => ⌊x⌋)).sum := by
    intro h
    rw [truncatingSum, truncatingSumFrom_of_nonneg v 0 (le_refl 0) h, Int.zero_add]
  have hexact : AccumulatesExactly 0 v →
      (self.step R v StepType.START).map Prod.snd = some ((truncatingSum v : ℤ) : ℚ) := by
    intro hex
    obtain ⟨x, xs, rfl⟩ := List.exists_cons_of_ne_nil hv
    rw [RollingSumOrMean_step_START R _ _ _ _ (accumulateInt_of_accumulatesExactly R _ _ hex)]
    simp [hsum, truncatingSum]
  refine ⟨?_, hexact, hnonneg, ?_, ?_⟩
  · intro out hout
    obtain ⟨x, xs, rfl⟩ := List.exists_cons_of_ne_nil hv
    cases hacc : accumulateInt R (x :: xs) 0 with
    | none =>
      have hl : ∃ l, (x :: xs).getLast? = some l :=
        ⟨(x :: xs).getLast (List.cons_ne_nil x xs), List.getLast?_eq_getLast _ _⟩
      obtain ⟨l, hl⟩ := hl
      simp [RollingSumOrMean.step, hl, hacc] at hout
    | some a =>
      rw [RollingSumOrMean_step_START R _ _ _ a hacc] at hout
      simp only [hsum, Option.map_some', Option.some.injEq] at hout
      have hout' : out = (a : ℚ) := by simpa using hout.symm
      subst hout'
      exact ⟨a, rfl, accumulateInt_inIntRange R _ 0 a (by norm_num [InIntRange]) hacc⟩
  · intro h hfrac
    rw [hnonneg h]
    exact floor_sum_lt_sum v hfrac
  · intro h
    rw [hexact (accumulatesExactly_of_unit_interval v h), hnonneg (fun x hx => (h x hx).2.1)]
    have hz : (v.map (fun (x : ℚ) => ⌊x⌋)).sum = 0 := by
      apply List.sum_eq_zero
      intro z hz
      obtain ⟨x, hx, rfl⟩ := List.mem_map.mp hz
      rw [Int.floor_eq_iff]
      exact ⟨by simpa using (h x hx).2.1, by simpa using (h x hx).2.2⟩
    rw [hz]
    simp

/-- C10 at the window `[0.5, 0.5]`: the START output in SUM mode is `0`, the exact
sum is `1`. -/
theorem RollingSumOrMean_START_integer_seed_witness :
    ((RollingSumOrMean.mk SumOrMeanType.SUM 0 0 0).step Rounding.exact [1/2, 1/2]
        StepType.START).map Prod.snd = some 0 ∧
      naiveSum [1/2, 1/2] = 1 := by
  have hunit : ∀ x ∈ ([1/2, 1/2] : List ℚ), IsBinary64 x ∧ 0 ≤ x ∧ x < 1 := by
    intro x hx
    simp only [List.mem_cons, List.mem_singleton, List.not_mem_nil, or_false, or_self] at hx
    subst hx
    exact ⟨isBinary64_half, by norm_num, by norm_num⟩
  have h := RollingSumOrMean_START_integer_seed Rounding.exact
    (RollingSumOrMean.mk SumOrMeanType.SUM 0 0 0) [1/2, 1/2] (by simp) rfl
  exact ⟨h.2.2.2.2 hunit, by norm_num [naiveSum]⟩

/-! ### RollingApply -/

theorem RollingApply_run_eq (a : RollingApply) (earlier : List (List ℚ × StepType)) :
    earlier.foldl (fun st e => (st.step e.1 e.2).1) a = a := by
  induction earlier with
  | nil => rfl
  | cons e es ih => simp [RollingApply.step]

/-- C8: for every caller-supplied function `f`, every window `v` and every phase,
`RollingApply::step(v, phase)` returns `f(v)`, whatever `init` was called with
and whatever windows and phases were stepped before. -/
theorem RollingApply_step_returns_apply_fun (f : List ℚ → ℚ) (n : Nat) (window : RollWindow)
    (earlier : List (List ℚ × StepType)) (v : List ℚ) (phase : StepType) :
    ((earlier.foldl (fun st e => (st.step e.1 e.2).1)
        ((RollingApply.mk f).init n window)).step v phase).2 = f v := by
  rw [RollingApply_run_eq]
  rfl

/-! ### RollingPriority -/

theorem scanWindow_cons (W : Nat) (xs : List ℚ) (k : Nat) (h : k < xs.length) :
    scanWindow (W + 1) xs k = xs[k] :: scanWindow W xs (k + 1) := by
  unfold scanWindow
  rw [List.drop_eq_getElem_cons h, List.take_succ_cons]

theorem scanWindow_snoc (W : Nat) (xs : List ℚ) (k : Nat) (h : k + W < xs.length) :
    scanWindow (W + 1) xs k = scanWindow W xs k ++ [xs[k + W]] := by
  unfold scanWindow
  rw [List.take_succ]
  simp [List.getElem?_drop, List.getElem?_eq_getElem h]

theorem scanWindow_nodup (W : Nat) (xs : List ℚ) (k : Nat) (h : xs.Nodup) :
    (scanWindow W xs k).Nodup :=
  List.Nodup.sublist ((List.take_sublist _ _).trans (List.drop_sublist _ _)) h

theorem scanWindow_length (W : Nat) (xs : List ℚ) (k : Nat) (h : k + W ≤ xs.length) :
    (scanWindow W xs k).length = W := by
  simp [scanWindow]
  omega

theorem msInsert_perm (x : ℚ) (s : List ℚ) : (msInsert x s).Perm (x :: s) :=
  List.perm_orderedInsert _ x s

theorem msInsert_sorted (x : ℚ) (s : List ℚ) (h : s.Sorted (· ≤ ·)) :
    (msInsert x s).Sorted (· ≤ ·) :=
  List.Sorted.orderedInsert x s h

theorem msInsertRange_perm (v s : List ℚ) : (msInsertRange s v).Perm (v ++ s) := by
  unfold msInsertRange
  induction v generalizing s with
  | nil => simp
  | cons x xs ih =>
    rw [List.foldl_cons]
    refine (ih (msInsert x s)).trans ?_
    refine ((msInsert_perm x s).append_left xs).trans ?_
    simp

theorem msInsertRange_sorted (v s : List ℚ) (h : s.Sorted (· ≤ ·)) :
    (msInsertRange s v).Sorted (· ≤ ·) := by
  unfold msInsertRange
  induction v generalizing s with
  | nil => exact h
  | cons x xs ih =>
    rw [List.foldl_cons]
    exact ih _ (msInsert_sorted x s h)

theorem sorted_head_minimum (s w : List ℚ) (m : ℚ) (hs : s.Sorted (· ≤ ·)) (hp : s.Perm w)
    (hm : s.head? = some m) : m ∈ w ∧ ∀ y ∈ w, m ≤ y := by
  cases s with
  | nil => simp at hm
  | cons a t =>
    simp only [List.head?_cons, Option.some.injEq] at hm
    subst hm
    refine ⟨hp.mem_iff.mp (List.mem_cons_self _ _), fun y hy => ?_⟩
    rcases List.mem_cons.mp (hp.mem_iff.mpr hy) with rfl | hy
    · exact le_refl _
    · exact List.rel_of_sorted_cons hs y hy

/-- Invariant of the scan of `RollingPriority` after the step on window `k`. -/
theorem RollingPriority_scan_invariant (W : Nat) (xs : List ℚ) (hnd : xs.Nodup) (n k : Nat)
    (hk : k + (W + 1) ≤ xs.length) :
    ∃ st m, (RollingPriority.new.init n ⟨W + 1⟩).scan (W + 1) xs k = some (st, m) ∧
      st._windows_length = W + 1 ∧ st._set.Sorted (· ≤ ·) ∧
      st._set.Perm (scanWindow (W + 1) xs k) ∧
      (scanWindow (W + 1) xs k).head? = some st._prev_last ∧ st._set.head? = some m := by
  induction k with
  | zero =>
    have hlen : 0 < xs.length := by omega
    have hw : scanWindow (W + 1) xs 0 = xs[0] :: scanWindow W xs 1 := scanWindow_cons W xs 0 hlen
    have hl : ∃ l, (scanWindow (W + 1) xs 0).getLast? = some l := by
      rw [hw]
      exact ⟨_, List.getLast?_eq_getLast _ (List.cons_ne_nil _ _)⟩
    obtain ⟨l, hl⟩ := hl
    have hperm : (msInsertRange [] (scanWindow (W + 1) xs 0)).Perm (scanWindow (W + 1) xs 0) := by
      simpa using msInsertRange_perm (scanWindow (W + 1) xs 0) []
    have hsorted := msInsertRange_sorted (scanWindow (W + 1) xs 0) [] List.sorted_nil
    have hne : msInsertRange [] (scanWindow (W + 1) xs 0) ≠ [] := by
      intro h0
      have := hperm.length_eq
      rw [h0, hw] at this
      simp at this
    obtain ⟨m, t, hmt⟩ := List.exists_cons_of_ne_nil hne
    refine ⟨{ _windows_length := W + 1, _set := msInsertRange [] (scanWindow (W + 1) xs 0),
              _prev_last := xs[0] }, m, ?_, rfl, hsorted, hperm, ?_, ?_⟩
    · simp only [RollingPriority.scan, RollingPriority.step, RollingPriority.init,
        RollingPriority.new, hl]
      rw [hw] at hmt ⊢
      simp only [List.head?_cons, hmt]
    · rw [hw]; rfl
    · show (msInsertRange [] (scanWindow (W + 1) xs 0)).head? = some m
      rw [hmt]; rfl
  | succ k ih =>
    obtain ⟨st, m, hscan, hwl, hsorted, hperm, hprev, _⟩ := ih (by omega)
    have hk0 : k < xs.length := by omega
    have hk1 : k + 1 < xs.length := by omega
    have hwk : scanWindow (W + 1) xs k = xs[k] :: scanWindow W xs (k + 1) :=
      scanWindow_cons W xs k hk0
    have hwk1 : scanWindow (W + 1) xs (k + 1) = scanWindow W xs (k + 1) ++ [xs[k + 1 + W]] :=
      scanWindow_snoc W xs (k + 1) (by omega)
    have hhead : ∃ a, (scanWindow (W + 1) xs (k + 1)).head? = some a := by
      rw [scanWindow_cons W xs (k + 1) hk1]; exact ⟨_, rfl⟩
    obtain ⟨a, ha⟩ := hhead
    have hlast : (scanWindow (W + 1) xs (k + 1)).getLast? = some xs[k + 1 + W] := by
      rw [hwk1]; simp
    have hpl : st._prev_last = xs[k] := by
      rw [hwk] at hprev
      simpa using hprev.symm
    have hfull : st._set.length = st._windows_length := by
      rw [hwl, hperm.length_eq, scanWindow_length _ _ _ (by omega)]
    have hnotin : xs[k] ∉ scanWindow W xs (k + 1) := by
      have := scanWindow_nodup (W + 1) xs k hnd
      rw [hwk] at this
      exact (List.nodup_cons.mp this).1
    have herase : (msErase st._set st._prev_last).Perm (scanWindow W xs (k + 1)) := by
      unfold msErase
      refine (hperm.filter _).trans ?_
      rw [hwk, hpl]
      simp only [ne_eq, decide_not, List.filter_cons, decide_True, Bool.not_true,
        Bool.false_eq_true, if_false]
      rw [List.filter_eq_self.mpr]
      intro y hy
      have : y ≠ xs[k] := fun h => hnotin (h ▸ hy)
      simpa using this
    have hsorted1 : (msInsert xs[k + 1 + W] (msErase st._set st._prev_last)).Sorted (· ≤ ·) :=
      msInsert_sorted _ _ (List.Sorted.filter _ hsorted)
    have hperm1 : (msInsert xs[k + 1 + W] (msErase st._set st._prev_last)).Perm
        (scanWindow (W + 1) xs (k + 1)) := by
      rw [hwk1]
      refine (msInsert_perm _ _).trans ?_
      refine (List.Perm.cons _ herase).trans ?_
      exact (List.perm_append_singleton _ _).symm
    have hne : msInsert xs[k + 1 + W] (msErase st._set st._prev_last) ≠ [] := by
      intro h0
      have := (msInsert_perm xs[k + 1 + W] (msErase st._set st._prev_last)).length_eq
      rw [h0] at this
      simp at this
    obtain ⟨m1, t, hmt⟩ := List.exists_cons_of_ne_nil hne
    refine ⟨{ st with _set := msInsert xs[k + 1 + W] (msErase st._set st._prev_last),
                      _prev_last := a }, m1, ?_, hwl, hsorted1, hperm1, ha, ?_⟩
    · simp only [RollingPriority.scan, hscan, RollingPriority.step, ha, hlast, hfull, if_true,
        hmt, List.head?_cons]
    · show (msInsert xs[k + 1 + W] (msErase st._set st._prev_last)).head? = some m1
      rw [hmt]; rfl

/-- C4: for every window length `W >= 1` set by `init` and every sample sequence
with pairwise distinct values, after `step(START)` on the first `W` samples and
`step(STEP)` on each successive window up to window `k`, the tracked set holds
exactly the values of window `k` and the value returned is the minimum of
window `k`. -/
theorem RollingPriority_scan_minimum (W : Nat) (hW : 1 ≤ W) (xs : List ℚ) (hnd : xs.Nodup)
    (n k : Nat) (hk : k + W ≤ xs.length) :
    ∃ st m, (RollingPriority.new.init n ⟨W⟩).scan W xs k = some (st, m) ∧
      st._set.Perm (scanWindow W xs k) ∧
      m ∈ scanWindow W xs k ∧ ∀ y ∈ scanWindow W xs k, m ≤ y := by
  obtain ⟨V, rfl⟩ : ∃ V, W = V + 1 := ⟨W - 1, by omega⟩
  obtain ⟨st, m, hscan, _, hsorted, hperm, _, hhead⟩ :=
    RollingPriority_scan_invariant V xs hnd n k hk
  exact ⟨st, m, hscan, hperm, sorted_head_minimum _ _ m hsorted hperm hhead⟩

/-- C4 at `W = 2` on the samples `3, 1, 2`: after START on `[3, 1]` and STEP on
`[1, 2]` the tracked set is `[1, 2]` and the output is `1`. -/
theorem RollingPriority_scan_minimum_witness :
    (∃ st m, (RollingPriority.new.init 0 ⟨2⟩).scan 2 [3, 1, 2] 1 = some (st, m) ∧
      st._set.Perm (scanWindow 2 [3, 1, 2] 1) ∧
      m ∈ scanWindow 2 [3, 1, 2] 1 ∧ ∀ y ∈ scanWindow 2 [3, 1, 2] 1, m ≤ y) ∧
    (RollingPriority.new.init 0 ⟨2⟩).scan 2 [3, 1, 2] 1
      = some ({ _windows_length := 2, _set := [1, 2], _prev_last := 1 }, 1) :=
  ⟨RollingPriority_scan_minimum 2 (by decide) [3, 1, 2] (by decide!) 0 1 (by decide),
    by decide!⟩

/-! ### NeuroonSignalStreamApi -/

/-- C9: `start_presentation` and `stop_presentation` return `false` exactly when
the state was created by `initialize_neuroon_alg_core` with a null presentation
callback, and then leave the state as it is; with a non-null callback they
return `true` and the daemon holds the staging algorithm followed by the
registered presentation algorithm with `activate()`, respectively
`deactivate()`, applied to it. -/
theorem presentation_calls_after_initialize {P : Type} (ops : PresentationOps P)
    (staging_callback sq_callback presentation_callback : Nat) :
    ((start_presentation ops
        (initialize_neuroon_alg_core ops staging_callback sq_callback presentation_callback)).2
          = false ↔ presentation_callback = 0) ∧
    ((stop_presentation ops
        (initialize_neuroon_alg_core ops staging_callback sq_callback presentation_callback)).2
          = false ↔ presentation_callback = 0) ∧
    (presentation_callback = 0 →
      (start_presentation ops
        (initialize_neuroon_alg_core ops staging_callback sq_callback presentation_callback)).1
        = initialize_neuroon_alg_core ops staging_callback sq_callback presentation_callback ∧
      (stop_presentation ops
        (initialize_neuroon_alg_core ops staging_callback sq_callback presentation_callback)).1
        = initialize_neuroon_alg_core ops staging_callback sq_callback presentation_callback ∧
      (initialize_neuroon_alg_core ops staging_callback sq_callback
        presentation_callback)._daemon._stream_algorithms
        = [StreamingAlgorithm.staging staging_callback]) ∧
    (presentation_callback ≠ 0 →
      (start_presentation ops
        (initialize_neuroon_alg_core ops staging_callback sq_callback presentation_callback))
        = ({ _daemon := { _processing_in_progress := false,
                          _stream_algorithms :=
                            [StreamingAlgorithm.staging staging_callback,
                             StreamingAlgorithm.presentation
                               (ops.activate (ops.create presentation_callback))] },
             _online_presentation := some 1 }, true) ∧
      (stop_presentation ops
        (initialize_neuroon_alg_core ops staging_callback sq_callback presentation_callback))
        = ({ _daemon := { _processing_in_progress := false,
                          _stream_algorithms :=
                            [StreamingAlgorithm.staging staging_callback,
                             StreamingAlgorithm.presentation
                               (ops.deactivate (ops.create presentation_callback))] },
             _online_presentation := some 1 }, true)) := by
  by_cases h : presentation_callback = 0
  · subst h
    simp [initialize_neuroon_alg_core, start_presentation, stop_presentation,
      AlgCoreDaemon.add_streaming_algorithms]
  · simp [initialize_neuroon_alg_core, start_presentation, stop_presentation,
      AlgCoreDaemon.add_streaming_algorithms, NeuroonSignalProcessingState.onPresentation, h,
      List.modify]

/-- C9 on a concrete instance whose presentation algorithm is its activation
flag: with the null callback both calls return `false`; with callback address
`7` both return `true` and the flag is set, respectively cleared. -/
theorem presentation_calls_after_initialize_example :
    (start_presentation flagPresentation (initialize_neuroon_alg_core flagPresentation 5 6 0)).2
        = false ∧
      (stop_presentation flagPresentation (initialize_neuroon_alg_core flagPresentation 5 6 0)).2
        = false ∧
      (start_presentation flagPresentation
          (initialize_neuroon_alg_core flagPresentation 5 6 7)).1._daemon._stream_algorithms
        = [StreamingAlgorithm.staging 5, StreamingAlgorithm.presentation true] ∧
      (stop_presentation flagPresentation
          (start_presentation flagPresentation
            (initialize_neuroon_alg_core flagPresentation 5 6 7)).1).1._daemon._stream_algorithms
        = [StreamingAlgorithm.staging 5, StreamingAlgorithm.presentation false] :=
  ⟨rfl, rfl, rfl, rfl⟩

/-! ### Frame codec -/

theorem fromSigned_toSigned_8 (a : Nat) (ha : a < 256) : fromSigned 8 (toSigned 8 a) = a := by
  unfold fromSigned toSigned
  split_ifs <;> omega

theorem fromSigned_toSigned_16 (n : Nat) (hn : n < 65536) :
    fromSigned 16 (toSigned 16 n) = n := by
  unfold fromSigned toSigned
  split_ifs <;> omega

theorem fromSigned_toSigned_32 (n : Nat) (hn : n < 4294967296) :
    fromSigned 32 (toSigned 32 n) = n := by
  unfold fromSigned toSigned
  split_ifs <;> omega

theorem readUnsigned_two_lt (order : ByteOrder) (a b : Nat) (ha : a < 256) (hb : b < 256) :
    readUnsigned order [a, b] < 65536 := by
  cases order <;> simp [readUnsigned] <;> omega

theorem readUnsigned_four_lt (order : ByteOrder) (a b c d : Nat) (ha : a < 256) (hb : b < 256)
    (hc : c < 256) (hd : d < 256) : readUnsigned order [a, b, c, d] < 4294967296 := by
  cases order <;> simp [readUnsigned] <;> omega

theorem writeUnsigned_readUnsigned_two (order : ByteOrder) (a b : Nat) (ha : a < 256)
    (hb : b < 256) : writeUnsigned order 2 (readUnsigned order [a, b]) = [a, b] := by
  cases order <;> simp [readUnsigned, writeUnsigned, List.range_succ] <;> omega

theorem writeUnsigned_readUnsigned_four (order : ByteOrder) (a b c d : Nat) (ha : a < 256)
    (hb : b < 256) (hc : c < 256) (hd : d < 256) :
    writeUnsigned order 4 (readUnsigned order [a, b, c, d]) = [a, b, c, d] := by
  cases order <;> simp [readUnsigned, writeUnsigned, List.range_succ] <;> omega

theorem roundtrip_signed_two (order : ByteOrder) (a b : Nat) (ha : a < 256) (hb : b < 256) :
    writeUnsigned order 2 (fromSigned 16 (toSigned 16 (readUnsigned order [a, b]))) = [a, b] := by
  rw [fromSigned_toSigned_16 _ (readUnsigned_two_lt order a b ha hb),
    writeUnsigned_readUnsigned_two order a b ha hb]

theorem roundtrip_signed_four (order : ByteOrder) (a b c d : Nat) (ha : a < 256) (hb : b < 256)
    (hc : c < 256) (hd : d < 256) :
    writeUnsigned order 4 (fromSigned 32 (toSigned 32 (readUnsigned order [a, b, c, d])))
      = [a, b, c, d] := by
  rw [fromSigned_toSigned_32 _ (readUnsigned_four_lt order a b c d ha hb hc hd),
    writeUnsigned_readUnsigned_four order a b c d ha hb hc hd]

theorem exists_twenty_bytes (bytes : List Nat) (hlen : bytes.length = 20) :
    ∃ b0 b1 b2 b3 b4 b5 b6 b7 b8 b9 b10 b11 b12 b13 b14 b15 b16 b17 b18 b19 : Nat,
      bytes = [b0, b1, b2, b3, b4, b5, b6, b7, b8, b9,
               b10, b11, b12, b13, b14, b15, b16, b17, b18, b19] := by
  match bytes, hlen with
  | [b0, b1, b2, b3, b4, b5, b6, b7, b8, b9,
     b10, b11, b12, b13, b14, b15, b16, b17, b18, b19], _ =>
    exact ⟨b0, b1, b2, b3, b4, b5, b6, b7, b8, b9,
      b10, b11, b12, b13, b14, b15, b16, b17, b18, b19, rfl⟩

/-- C2: for both frame kinds, both byte orders and every 20-byte input, decoding
and re-encoding in the same byte order reproduces the 20 input bytes, the bytes
at offsets 8..11 of a PAT frame included. -/
theorem to_bytes_from_bytes_array (order : ByteOrder) (bytes : List Nat)
    (hlen : bytes.length = 20) (hbyte : ∀ b ∈ bytes, b < 256) :
    (EegFrame.from_bytes_array bytes order).map (fun f => f.to_bytes order) = some bytes ∧
      (PatFrame.from_bytes_array bytes order).map (fun f => f.to_bytes order) = some bytes := by
  obtain ⟨b0, b1, b2, b3, b4, b5, b6, b7, b8, b9,
    b10, b11, b12, b13, b14, b15, b16, b17, b18, b19, rfl⟩ := exists_twenty_bytes bytes hlen
  simp only [List.mem_cons, List.mem_singleton, forall_eq_or_imp, forall_eq, List.not_mem_nil,
    false_implies, implies_true, and_true] at hbyte
  obtain ⟨h0, h1, h2, h3, h4, h5, h6, h7, h8, h9,
    h10, h11, h12, h13, h14, h15, h16, h17, h18, h19⟩ := hbyte
  constructor
  · simp [EegFrame.from_bytes_array, EegFrame.to_bytes, frameWidth, byteSpan, List.range_succ,
      roundtrip_signed_two, writeUnsigned_readUnsigned_four, *]
  · simp [PatFrame.from_bytes_array, PatFrame.to_bytes, frameWidth, byteSpan,
      roundtrip_signed_two, roundtrip_signed_four, writeUnsigned_readUnsigned_four,
      fromSigned_toSigned_8, *]

/-- C2 on the 20-byte vector of the test, for both frame kinds, in either byte
order (whichever of the two is the default). -/
theorem to_bytes_from_bytes_array_witness :
    ((EegFrame.from_bytes_array testBytes ByteOrder.BE).map (fun f => f.to_bytes ByteOrder.BE)
        = some testBytes ∧
      (PatFrame.from_bytes_array testBytes ByteOrder.BE).map (fun f => f.to_bytes ByteOrder.BE)
        = some testBytes) ∧
    ((EegFrame.from_bytes_array testBytes ByteOrder.LE).map (fun f => f.to_bytes ByteOrder.LE)
        = some testBytes ∧
      (PatFrame.from_bytes_array testBytes ByteOrder.LE).map (fun f => f.to_bytes ByteOrder.LE)
        = some testBytes) :=
  ⟨to_bytes_from_bytes_array ByteOrder.BE testBytes (by decide) (by decide),
    to_bytes_from_bytes_array ByteOrder.LE testBytes (by decide) (by decide)⟩

theorem isSignedValue_toSigned_8 (n : Nat) (hn : n < 256) : IsSignedValue 8 (toSigned 8 n) n := by
  unfold IsSignedValue toSigned
  split_ifs <;> omega

theorem isSignedValue_toSigned_16 (n m : Nat) (hn : n < 65536) (hm : n = m) :
    IsSignedValue 16 (toSigned 16 n) m := by
  subst hm
  unfold IsSignedValue toSigned
  split_ifs <;> omega

theorem isSignedValue_toSigned_32 (n m : Nat) (hn : n < 4294967296) (hm : n = m) :
    IsSignedValue 32 (toSigned 32 n) m := by
  subst hm
  unfold IsSignedValue toSigned
  split_ifs <;> omega

theorem readUnsigned_two_eq (order : ByteOrder) (a b : Nat) :
    readUnsigned order [a, b]
      = match order with
        | ByteOrder.BE => a * 256 + b
        | ByteOrder.LE => a + b * 256 := by
  cases order
  · simp [readUnsigned]; omega
  · simp [readUnsigned]

theorem readUnsigned_four_eq (order : ByteOrder) (a b c d : Nat) :
    readUnsigned order [a, b, c, d]
      = match order with
        | ByteOrder.BE => a * 16777216 + b * 65536 + c * 256 + d
        | ByteOrder.LE => a + b * 256 + c * 65536 + d * 16777216 := by
  cases order <;> simp [readUnsigned] <;> omega

/-- C3: for every 20-byte input and each byte order, `from_bytes_array` succeeds
and reads each field from its documented byte span in that order: the timestamp
from bytes 0..3, EEG sample `i` as the signed 16-bit value of bytes
`4 + 2 i .. 5 + 2 i`, the PAT reading `ir_led` as the signed 32-bit value of
bytes 4..7, the accelerometer axes as the signed 16-bit values of bytes 12..13,
14..15 and 16..17, and the two temperatures as the sign-extended bytes 18 and
19, whatever the byte order. -/
theorem from_bytes_array_fields (order : ByteOrder) (bytes : List Nat)
    (hlen : bytes.length = 20) (hbyte : ∀ b ∈ bytes, b < 256) :
    ∃ e p, EegFrame.from_bytes_array bytes order = some e ∧
      PatFrame.from_bytes_array bytes order = some p ∧
      e.timestamp = spanValue order bytes 0 4 ∧
      p.timestamp = spanValue order bytes 0 4 ∧
      e.signal.length = 8 ∧
      (∀ i, i < 8 →
        IsSignedValue 16 (e.signal.getD i 0) (spanValue order bytes (4 + 2 * i) 2)) ∧
      IsSignedValue 32 p.ir_led (spanValue order bytes 4 4) ∧
      IsSignedValue 16 p.accel_axes.x (spanValue order bytes 12 2) ∧
      IsSignedValue 16 p.accel_axes.y (spanValue order bytes 14 2) ∧
      IsSignedValue 16 p.accel_axes.z (spanValue order bytes 16 2) ∧
      p.temperature.length = 2 ∧
      IsSignedValue 8 (p.temperature.getD 0 0) (bytes.getD 18 0) ∧
      IsSignedValue 8 (p.temperature.getD 1 0) (bytes.getD 19 0) := by
  obtain ⟨b0, b1, b2, b3, b4, b5, b6, b7, b8, b9,
    b10, b11, b12, b13, b14, b15, b16, b17, b18, b19, rfl⟩ := exists_twenty_bytes bytes hlen
  simp only [List.mem_cons, List.mem_singleton, forall_eq_or_imp, forall_eq, List.not_mem_nil,
    false_implies, implies_true, and_true] at hbyte
  obtain ⟨h0, h1, h2, h3, h4, h5, h6, h7, h8, h9,
    h10, h11, h12, h13, h14, h15, h16, h17, h18, h19⟩ := hbyte
  refine ⟨_, _, if_neg (by simp [frameWidth]), if_neg (by simp [frameWidth]), ?_, ?_, ?_, ?_, ?_,
    ?_, ?_, ?_, ?_, ?_, ?_⟩
  · cases order <;> simp [byteSpan, readUnsigned, spanValue, List.range_succ] <;> omega
  · cases order <;> simp [byteSpan, readUnsigned, spanValue, List.range_succ] <;> omega
  · simp
  · intro i hi
    interval_cases i <;>
      simp only [byteSpan, List.range_succ, List.range_zero, List.map_cons, List.map_nil,
        List.nil_append, List.cons_append, List.getD_cons_zero, List.getD_cons_succ,
        List.drop_succ_cons, List.drop_zero, List.take_succ_cons, List.take_zero,
        Nat.mul_zero, Nat.mul_one, Nat.add_zero, Nat.reduceMul, Nat.reduceAdd] <;>
      refine isSignedValue_toSigned_16 _ _ (readUnsigned_two_lt order _ _ ‹_› ‹_›) ?_ <;>
      rw [readUnsigned_two_eq] <;>
      cases order <;> simp [spanValue, List.range_succ]
  · refine isSignedValue_toSigned_32 _ _ (readUnsigned_four_lt order _ _ _ _ h4 h5 h6 h7) ?_
    simp only [byteSpan, List.drop_succ_cons, List.drop_zero, List.take_succ_cons, List.take_zero]
    rw [readUnsigned_four_eq]
    cases order <;> simp [spanValue, List.range_succ] <;> omega
  · refine isSignedValue_toSigned_16 _ _ (readUnsigned_two_lt order _ _ h12 h13) ?_
    simp only [byteSpan, List.drop_succ_cons, List.drop_zero, List.take_succ_cons, List.take_zero]
    rw [readUnsigned_two_eq]
    cases order <;> simp [spanValue, List.range_succ]
  · refine isSignedValue_toSigned_16 _ _ (readUnsigned_two_lt order _ _ h14 h15) ?_
    simp only [byteSpan, List.drop_succ_cons, List.drop_zero, List.take_succ_cons, List.take_zero]
    rw [readUnsigned_two_eq]
    cases order <;> simp [spanValue, List.range_succ]
  · refine isSignedValue_toSigned_16 _ _ (readUnsigned_two_lt order _ _ h16 h17) ?_
    simp only [byteSpan, List.drop_succ_cons, List.drop_zero, List.take_succ_cons, List.take_zero]
    rw [readUnsigned_two_eq]
    cases order <;> simp [spanValue, List.range_succ]
  · simp [byteSpan]
  · simpa [byteSpan] using isSignedValue_toSigned_8 b18 h18
  · simpa [byteSpan] using isSignedValue_toSigned_8 b19 h19

/-- C3 on the 20-byte vector of the test: the general statement in both byte
orders, and the decoded values the test expects. -/
theorem from_bytes_array_fields_witness :
    (∃ e p, EegFrame.from_bytes_array testBytes ByteOrder.BE = some e ∧
      PatFrame.from_bytes_array testBytes ByteOrder.BE = some p ∧
      e.timestamp = spanValue ByteOrder.BE testBytes 0 4 ∧
      p.timestamp = spanValue ByteOrder.BE testBytes 0 4 ∧
      e.signal.length = 8 ∧
      (∀ i, i < 8 →
        IsSignedValue 16 (e.signal.getD i 0) (spanValue ByteOrder.BE testBytes (4 + 2 * i) 2)) ∧
      IsSignedValue 32 p.ir_led (spanValue ByteOrder.BE testBytes 4 4) ∧
      IsSignedValue 16 p.accel_axes.x (spanValue ByteOrder.BE testBytes 12 2) ∧
      IsSignedValue 16 p.accel_axes.y (spanValue ByteOrder.BE testBytes 14 2) ∧
      IsSignedValue 16 p.accel_axes.z (spanValue ByteOrder.BE testBytes 16 2) ∧
      p.temperature.length = 2 ∧
      IsSignedValue 8 (p.temperature.getD 0 0) (testBytes.getD 18 0) ∧
      IsSignedValue 8 (p.temperature.getD 1 0) (testBytes.getD 19 0)) ∧
    EegFrame.from_bytes_array testBytes ByteOrder.BE
      = some { timestamp := 19088743,
               signal := [-30293, -21623, -12817, -4147, 291, 17767, -30293, -21623] } ∧
    PatFrame.from_bytes_array testBytes ByteOrder.BE
      = some { timestamp := 19088743, ir_led := -1985238135,
               reserved := [0xCD, 0xEF, 0xEF, 0xCD],
               accel_axes := { x := 291, y := 17767, z := -30293 },
               temperature := [-85, -119] } ∧
    EegFrame.from_bytes_array testBytes ByteOrder.LE
      = some { timestamp := 1732584193,
               signal := [-21623, -30293, -4147, -12817, 8961, 26437, -21623, -30293] } ∧
    PatFrame.from_bytes_array testBytes ByteOrder.LE
      = some { timestamp := 1732584193, ir_led := -1985238135,
               reserved := [0xCD, 0xEF, 0xEF, 0xCD],
               accel_axes := { x := 8961, y := 26437, z := -21623 },
               temperature := [-85, -119] } :=
  ⟨from_bytes_array_fields ByteOrder.BE testBytes (by decide) (by decide),
    by decide, by decide, by decide, by decide⟩

/-! ### Stream pipe -/

theorem FrameStreamPipe_isBroken_live {α : Type} (src log : List α) :
    FrameStreamPipe.isBroken { source := src, sink := some log } = false := by
  by_cases h : src.isEmpty = true <;> simp [FrameStreamPipe.isBroken, FrameStreamPipe.state, h]

theorem FrameStreamPipe_isDepleted_live {α : Type} (src log : List α) :
    FrameStreamPipe.isDepleted { source := src, sink := some log } = src.isEmpty := by
  by_cases h : src.isEmpty = true <;> simp [FrameStreamPipe.isDepleted, FrameStreamPipe.state, h]

theorem FrameStreamPipe_iterate_step {α : Type} (fs : List α) (k : Nat) :
    Nat.iterate FrameStreamPipe.step k (FrameStreamPipe.new fs)
      = { source := fs.drop k, sink := some (fs.take k) } := by
  induction k with
  | zero => rfl
  | succ k ih =>
    rw [Function.iterate_succ_apply', ih]
    by_cases hk : k < fs.length
    · rw [List.drop_eq_getElem_cons hk]
      simp only [FrameStreamPipe.step, List.take_succ, List.getElem?_eq_getElem hk,
        Option.toList_some]
    · have hk1 : fs.length ≤ k := Nat.le_of_not_lt hk
      rw [List.drop_eq_nil_of_le hk1, List.drop_eq_nil_of_le (Nat.le_succ_of_le hk1),
        List.take_of_length_le hk1, List.take_of_length_le (Nat.le_succ_of_le hk1)]
      rfl

/-- C5: a pipe over a source with `N` producible frames and a live sink has
delivered, after `k` steps, exactly the first `k` frames of the source in order
(so its `k`-th step delivers the `k`-th frame, and nothing is delivered after
the `N`-th), it is depleted exactly from the `N`-th step on, and it is never
broken. -/
theorem FrameStreamPipe_steps {α : Type} (fs : List α) (k : Nat) :
    (Nat.iterate FrameStreamPipe.step k (FrameStreamPipe.new fs)).sink = some (fs.take k) ∧
      ((Nat.iterate FrameStreamPipe.step k (FrameStreamPipe.new fs)).isDepleted = true
        ↔ fs.length ≤ k) ∧
      (Nat.iterate FrameStreamPipe.step k (FrameStreamPipe.new fs)).isBroken = false := by
  rw [FrameStreamPipe_iterate_step]
  refine ⟨rfl, ?_, FrameStreamPipe_isBroken_live _ _⟩
  rw [FrameStreamPipe_isDepleted_live]
  simp

/-- C5 on the source over the integers `0 .. 249`: it has 31 frames, after 31
steps the sink holds these 31 frames and the pipe is depleted, after 30 steps
it is not, and 40 steps deliver nothing more. -/
theorem FrameStreamPipe_steps_witness :
    (csvFrames 250).length = 31 ∧
      (Nat.iterate FrameStreamPipe.step 31 (FrameStreamPipe.new (csvFrames 250))).sink
        = some (csvFrames 250) ∧
      (Nat.iterate FrameStreamPipe.step 31 (FrameStreamPipe.new (csvFrames 250))).isDepleted
        = true ∧
      (Nat.iterate FrameStreamPipe.step 30 (FrameStreamPipe.new (csvFrames 250))).isDepleted
        = false ∧
      (Nat.iterate FrameStreamPipe.step 40 (FrameStreamPipe.new (csvFrames 250))).sink
        = some (csvFrames 250) := by
  have h31 := FrameStreamPipe_steps (csvFrames 250) 31
  have h30 := FrameStreamPipe_steps (csvFrames 250) 30
  have h40 := FrameStreamPipe_steps (csvFrames 250) 40
  have hlen : (csvFrames 250).length = 31 := by simp [csvFrames]
  refine ⟨hlen, ?_, ?_, ?_, ?_⟩
  · rw [h31.1, List.take_of_length_le (by omega)]
  · exact h31.2.1.mpr (by omega)
  · cases hd : (Nat.iterate FrameStreamPipe.step 30
        (FrameStreamPipe.new (csvFrames 250))).isDepleted with
    | false => rfl
    | true => have := h30.2.1.mp hd; omega
  · rw [h40.1, List.take_of_length_le (by omega)]

theorem succ_div_of_dvd (I D : Nat) (h : I ∣ D + 1) : (D + 1) / I = D / I + 1 := by
  rw [Nat.succ_div, if_pos h]

theorem succ_div_of_not_dvd (I D : Nat) (h : ¬ I ∣ D + 1) : (D + 1) / I = D / I := by
  rw [Nat.succ_div, if_neg h, Nat.add_zero]

theorem due_le_succ_iff (I D : Nat) (hI : 0 < I) : (D / I + 1) * I ≤ D + 1 ↔ I ∣ D + 1 := by
  constructor
  · intro h
    by_contra hd
    have h1 := succ_div_of_not_dvd I D hd
    have h2 : D + 1 < I * ((D + 1) / I + 1) := Nat.lt_mul_div_succ (D + 1) hI
    rw [h1, Nat.mul_comm] at h2
    omega
  · intro hd
    have h1 := succ_div_of_dvd I D hd
    have h2 : (D + 1) / I * I = D + 1 := Nat.div_mul_cancel hd
    rw [h1] at h2
    omega

theorem FrameStreamPipe_step_drop_take {α : Type} (fs : List α) (k : Nat) (hk : k < fs.length) :
    FrameStreamPipe.step { source := fs.drop k, sink := some (fs.take k) }
      = { source := fs.drop (k + 1), sink := some (fs.take (k + 1)) } := by
  rw [List.drop_eq_getElem_cons hk]
  simp only [FrameStreamPipe.step, List.take_succ, List.getElem?_eq_getElem hk,
    Option.toList_some]

theorem cadence_succ (I D : Nat) :
    cadence [I, 2 * I] (D + 1)
      = cadence [I, 2 * I] D ++
          ((if (D + 1) % I = 0 then [(D + 1, 0)] else []) ++
            (if (D + 1) % (2 * I) = 0 then [(D + 1, 1)] else [])) := by
  unfold cadence
  rw [List.range_succ, List.map_append, List.flatten_append]
  congr 1
  by_cases h1 : (D + 1) % I = 0 <;> by_cases h2 : (D + 1) % (2 * I) = 0 <;>
    simp [List.enum, List.enumFrom, List.filter_cons, h1, h2]

theorem twoPipeSimulator_eq {α : Type} (I : Nat) (s0 s1 : List α) :
    twoPipeSimulator I s0 s1 = twoPipeState I s0 s1 0 := by
  simp [twoPipeSimulator, twoPipeState, SignalSimulator.new, SignalSimulator.add_streaming_pipe,
    cadence]

theorem twoPipeState_tick {α : Type} (I : Nat) (hI : 0 < I) (s0 s1 : List α) (D : Nat)
    (h0 : (D + 1) / I ≤ s0.length) (h1 : (D + 1) / (2 * I) ≤ s1.length) :
    (twoPipeState I s0 s1 D).tick = twoPipeState I s0 s1 (D + 1) := by
  have hI2 : 0 < 2 * I := by omega
  have hdue0 := due_le_succ_iff I D hI
  have hdue1 := due_le_succ_iff (2 * I) D hI2
  by_cases hd0 : I ∣ D + 1
  · have hm0 : (D + 1) % I = 0 := Nat.mod_eq_zero_of_dvd hd0
    have hq0 := succ_div_of_dvd I D hd0
    have hk0 : D / I < s0.length := by omega
    have hstep0 := FrameStreamPipe_step_drop_take s0 (D / I) hk0
    have hne0 : (List.drop (D / I) s0).isEmpty = false := by
      rw [List.drop_eq_getElem_cons hk0]; rfl
    by_cases hd1 : 2 * I ∣ D + 1
    · have hm1 : (D + 1) % (2 * I) = 0 := Nat.mod_eq_zero_of_dvd hd1
      have hq1 := succ_div_of_dvd (2 * I) D hd1
      have hk1 : D / (2 * I) < s1.length := by omega
      have hstep1 := FrameStreamPipe_step_drop_take s1 (D / (2 * I)) hk1
      have hne1 : (List.drop (D / (2 * I)) s1).isEmpty = false := by
        rw [List.drop_eq_getElem_cons hk1]; rfl
      simp only [twoPipeState, SignalSimulator.tick, List.foldl_cons, List.foldl_nil,
        SignalSimulator.visit, SignalSimulator.pipeOf, FrameStreamPipe_isBroken_live,
        FrameStreamPipe_isDepleted_live, hdue0.mpr hd0, hdue1.mpr hd1, if_true, List.getD_cons_zero,
        List.getD_cons_succ, Option.isNone_some, Bool.false_or, hne0, hne1, hstep0, hstep1,
        List.set_cons_zero, List.set_cons_succ, List.nil_append, List.cons_append,
        List.length_nil, List.length_cons, cadence_succ, hm0, hm1, hq0, hq1,
        Bool.false_eq_true, if_false, List.append_assoc, zero_add]
      simp [Nat.add_mul]
    · have hm1 : ¬ (D + 1) % (2 * I) = 0 := fun h => hd1 (Nat.dvd_of_mod_eq_zero h)
      have hq1 := succ_div_of_not_dvd (2 * I) D hd1
      simp only [twoPipeState, SignalSimulator.tick, List.foldl_cons, List.foldl_nil,
        SignalSimulator.visit, SignalSimulator.pipeOf, FrameStreamPipe_isBroken_live,
        FrameStreamPipe_isDepleted_live, hdue0.mpr hd0, (not_congr hdue1).mpr hd1, if_true,
        List.getD_cons_zero, List.getD_cons_succ, Option.isNone_some, Bool.false_or, hne0, hstep0,
        List.set_cons_zero, List.set_cons_succ, List.nil_append, List.cons_append,
        List.length_nil, List.length_cons, cadence_succ, hm0, hm1, hq0, hq1,
        Bool.false_eq_true, if_false, List.append_assoc, zero_add]
      simp [Nat.add_mul]
  · have hm0 : ¬ (D + 1) % I = 0 := fun h => hd0 (Nat.dvd_of_mod_eq_zero h)
    have hq0 := succ_div_of_not_dvd I D hd0
    have hd1 : ¬ 2 * I ∣ D + 1 := fun h => hd0 (Dvd.dvd.trans (Dvd.intro_left 2 rfl) h)
    have hm1 : ¬ (D + 1) % (2 * I) = 0 := fun h => hd1 (Nat.dvd_of_mod_eq_zero h)
    have hq1 := succ_div_of_not_dvd (2 * I) D hd1
    simp only [twoPipeState, SignalSimulator.tick, List.foldl_cons, List.foldl_nil,
      SignalSimulator.visit, (not_congr hdue0).mpr hd0, (not_congr hdue1).mpr hd1, if_false,
      List.nil_append, List.cons_append, cadence_succ, hm0, hm1, hq0, hq1, List.append_nil]

theorem twoPipeState_iterate {α : Type} (I : Nat) (hI : 0 < I) (s0 s1 : List α) (D n : Nat)
    (h0 : (D + n) / I ≤ s0.length) (h1 : (D + n) / (2 * I) ≤ s1.length) :
    Nat.iterate SignalSimulator.tick n (twoPipeState I s0 s1 D) = twoPipeState I s0 s1 (D + n) := by
  induction n with
  | zero => rfl
  | succ n ih =>
    have hm0 : (D + n) / I ≤ (D + (n + 1)) / I := Nat.div_le_div_right (by omega)
    have hm1 : (D + n) / (2 * I) ≤ (D + (n + 1)) / (2 * I) := Nat.div_le_div_right (by omega)
    rw [Function.iterate_succ_apply', ih (by omega) (by omega)]
    exact twoPipeState_tick I hI s0 s1 (D + n) h0 h1

theorem twoPipeState_pass_time {α : Type} (I : Nat) (hI : 0 < I) (s0 s1 : List α) (D d : Nat)
    (hd : 0 < d) (h0 : (D + d) / I ≤ s0.length) (h1 : (D + d) / (2 * I) ≤ s1.length) :
    (twoPipeState I s0 s1 D).pass_time d = twoPipeState I s0 s1 (D + d) := by
  unfold SignalSimulator.pass_time
  rw [if_neg (by omega)]
  exact twoPipeState_iterate I hI s0 s1 D d h0 h1

theorem twoPipeState_pass_times {α : Type} (I : Nat) (hI : 0 < I) (s0 s1 : List α)
    (ds : List Nat) (hds : ∀ d ∈ ds, 0 < d) (D : Nat)
    (h0 : (D + ds.sum) / I ≤ s0.length) (h1 : (D + ds.sum) / (2 * I) ≤ s1.length) :
    ds.foldl SignalSimulator.pass_time (twoPipeState I s0 s1 D)
      = twoPipeState I s0 s1 (D + ds.sum) := by
  induction ds generalizing D with
  | nil => rfl
  | cons d ds ih =>
    have hd : 0 < d := hds d (List.mem_cons_self d ds)
    have hsum : D + (d :: ds).sum = D + d + ds.sum := by simp [Nat.add_assoc]
    rw [hsum] at h0 h1 ⊢
    have hm0 : (D + d) / I ≤ (D + d + ds.sum) / I := Nat.div_le_div_right (by omega)
    have hm1 : (D + d) / (2 * I) ≤ (D + d + ds.sum) / (2 * I) := Nat.div_le_div_right (by omega)
    rw [List.foldl_cons, twoPipeState_pass_time I hI s0 s1 D d hd (by omega) (by omega)]
    exact ih (fun x hx => hds x (List.mem_cons_of_mem d hx)) (D + d) h0 h1

theorem stepCount_cadence (I D : Nat) :
    stepCount (cadence [I, 2 * I] D) 0 = D / I ∧
      stepCount (cadence [I, 2 * I] D) 1 = D / (2 * I) := by
  induction D with
  | zero => simp [stepCount, cadence]
  | succ D ih =>
    obtain ⟨ih0, ih1⟩ := ih
    unfold stepCount at ih0 ih1 ⊢
    rw [cadence_succ, List.filter_append, List.filter_append, List.length_append,
      List.length_append, List.filter_append, List.filter_append, List.length_append,
      List.length_append, ih0, ih1, Nat.succ_div, Nat.succ_div]
    simp only [Nat.dvd_iff_mod_eq_zero]
    constructor
    · by_cases h1 : (D + 1) % I = 0 <;> by_cases h2 : (D + 1) % (2 * I) = 0 <;> simp [h1, h2]
    · by_cases h1 : (D + 1) % I = 0 <;> by_cases h2 : (D + 1) % (2 * I) = 0 <;> simp [h1, h2]

/-- C7: two pipes registered at the intervals `I` and `2 I`, whose sources hold
enough frames for the run and whose sinks stay alive, are advanced in instant
mode by calls `pass_time(d)` with positive durations `ds` of total `D`.  Then the
first pipe is stepped `D / I` times and the second `D / (2 I)` times, each
delivering that many frames of its source in order; the steps are taken in
increasing virtual time, the first-registered pipe first whenever both are due
at the same time; and the state reached is the one reached by the single call
`pass_time(D)`. -/
theorem SignalSimulator_two_pipes_cadence {α : Type} (I : Nat) (hI : 0 < I) (s0 s1 : List α)
    (ds : List Nat) (hds : ∀ d ∈ ds, 0 < d)
    (h0 : ds.sum / I ≤ s0.length) (h1 : ds.sum / (2 * I) ≤ s1.length) :
    stepCount (ds.foldl SignalSimulator.pass_time (twoPipeSimulator I s0 s1)).steps 0
        = ds.sum / I ∧
      stepCount (ds.foldl SignalSimulator.pass_time (twoPipeSimulator I s0 s1)).steps 1
        = ds.sum / (2 * I) ∧
      (ds.foldl SignalSimulator.pass_time (twoPipeSimulator I s0 s1)).sinks
        = [some (s0.take (ds.sum / I)), some (s1.take (ds.sum / (2 * I)))] ∧
      (ds.foldl SignalSimulator.pass_time (twoPipeSimulator I s0 s1)).steps
        = cadence [I, 2 * I] ds.sum ∧
      (ds ≠ [] → ds.foldl SignalSimulator.pass_time (twoPipeSimulator I s0 s1)
        = (twoPipeSimulator I s0 s1).pass_time ds.sum) := by
  have hrun : ds.foldl SignalSimulator.pass_time (twoPipeSimulator I s0 s1)
      = twoPipeState I s0 s1 ds.sum := by
    rw [twoPipeSimulator_eq, twoPipeState_pass_times I hI s0 s1 ds hds 0 (by simpa using h0)
      (by simpa using h1), Nat.zero_add]
  rw [hrun]
  refine ⟨(stepCount_cadence I ds.sum).1, (stepCount_cadence I ds.sum).2, rfl, rfl, ?_⟩
  intro hne
  have hpos : 0 < ds.sum := by
    cases ds with
    | nil => exact absurd rfl hne
    | cons d ds =>
      have := hds d (List.mem_cons_self d ds)
      simp only [List.sum_cons]
      omega
  rw [twoPipeSimulator_eq, twoPipeState_pass_time I hI s0 s1 0 ds.sum hpos (by simpa using h0)
    (by simpa using h1), Nat.zero_add]

/-- C7 on concrete runs.  First the general statement for pipes at 64 ms and
128 ms over the sources `0 .. 249` and `0 .. 499`, advanced by 1000 ms and then
985 ms.  Then the two tests: two pipes at 64 ms into one sink, advanced by
1985 ms, take 31 steps each and deliver 62 frames, the first being depleted and
the second not, and the draining call brings the total to 93; two pipes at 32 ms
and 64 ms that share the source `0 .. 249` receive 21 and 10 frames, the second
receiving the frames 2, 5, ..., 29, whose samples sum to 10200. -/
theorem SignalSimulator_two_pipes_cadence_witness :
    (stepCount ([1000, 985].foldl SignalSimulator.pass_time
          (twoPipeSimulator 64 (csvFrames 250) (csvFrames 500))).steps 0
        = [1000, 985].sum / 64 ∧
      stepCount ([1000, 985].foldl SignalSimulator.pass_time
          (twoPipeSimulator 64 (csvFrames 250) (csvFrames 500))).steps 1
        = [1000, 985].sum / (2 * 64) ∧
      ([1000, 985].foldl SignalSimulator.pass_time
          (twoPipeSimulator 64 (csvFrames 250) (csvFrames 500))).sinks
        = [some ((csvFrames 250).take ([1000, 985].sum / 64)),
           some ((csvFrames 500).take ([1000, 985].sum / (2 * 64)))] ∧
      ([1000, 985].foldl SignalSimulator.pass_time
          (twoPipeSimulator 64 (csvFrames 250) (csvFrames 500))).steps
        = cadence [64, 2 * 64] [1000, 985].sum ∧
      ([1000, 985] ≠ [] → [1000, 985].foldl SignalSimulator.pass_time
          (twoPipeSimulator 64 (csvFrames 250) (csvFrames 500))
        = (twoPipeSimulator 64 (csvFrames 250) (csvFrames 500)).pass_time [1000, 985].sum)) ∧
    (simTwoPipesSingleSink.pass_time 1985).observe = ([some 62], (31, 31), [true, false]) ∧
    ((simTwoPipesSingleSink.pass_time 1985).pass_time 0).observe
      = ([some 93], (31, 62), [true, true]) ∧
    (simTwoPipesSingleSource.pass_time 0).observe = ([some 21, some 10], (21, 10), [true, true]) ∧
    (simTwoPipesSingleSource.pass_time 0).sinks.getD 1 none
      = some ((List.range 10).map (fun j => (csvFrames 250).getD (3 * j + 2) [])) ∧
    (((simTwoPipesSingleSource.pass_time 0).sinks.getD 1 none).map (fun l => l.flatten.sum))
      = some 10200 :=
  ⟨SignalSimulator_two_pipes_cadence 64 (by decide) (csvFrames 250) (csvFrames 500) [1000, 985]
      (by decide) (by decide) (by decide),
    by decide!, by decide!, by decide!, by decide!, by decide!⟩

/-! ### RollingPriority with duplicate values -/

/-- C11: there is a window length and a sample sequence with duplicate values for
which an output of the scan is not the minimum of the current window.  With
`W = 2` on the samples `1, 1, 2`, the step on the second window `[1, 2]` evicts
the recorded oldest value `1` by value, which removes both copies from the
tracked set; the set is left holding `2` alone, no longer the values of the
window, and the output is `2` although the window holds `1`. -/
theorem RollingPriority_duplicates_not_minimum :
    ∃ (W : Nat) (xs : List ℚ) (k : Nat), 1 ≤ W ∧ ¬ xs.Nodup ∧ k + W ≤ xs.length ∧
      ∃ st m, (RollingPriority.new.init 0 ⟨W⟩).scan W xs k = some (st, m) ∧
        ¬ st._set.Perm (scanWindow W xs k) ∧
        ∃ y ∈ scanWindow W xs k, y < m := by
  refine ⟨2, [1, 1, 2], 1, by decide, by decide!, by decide,
    { _windows_length := 2, _set := [2], _prev_last := 1 }, 2, by decide!, ?_, 1, by decide!,
    by decide!⟩
  intro h
  have hlen := h.length_eq
  simp [scanWindow] at hlen

/-- C11, the run in full: the state and the output after START on `[1, 1]`, and
after the following STEP on `[1, 2]`. -/
theorem RollingPriority_duplicates_run :
    (RollingPriority.new.init 0 ⟨2⟩).scan 2 [1, 1, 2] 0
        = some ({ _windows_length := 2, _set := [1, 1], _prev_last := 1 }, 1) ∧
      (RollingPriority.new.init 0 ⟨2⟩).scan 2 [1, 1, 2] 1
        = some ({ _windows_length := 2, _set := [2], _prev_last := 1 }, 2) ∧
      scanWindow 2 [1, 1, 2] 1 = [1, 2] := by
  decide!

/-! ### RollingSumOrMean on integer-valued samples -/

theorem inIntRange_abs_le (q : ℚ) (h : InIntRange q) : |q| ≤ 2 ^ 31 := by
  obtain ⟨h1, h2⟩ := h
  rw [abs_le]
  exact ⟨by linarith, le_of_lt h2⟩

theorem isBinary64_of_int_of_abs_lt (q : ℚ) (z : ℤ) (hz : q = (z : ℚ)) (h : |q| < 2 ^ 53) :
    IsBinary64 q := by
  subst hz
  refine isBinary64_intCast z ?_
  have : |((z : ℤ) : ℚ)| = ((|z| : ℤ) : ℚ) := by simp
  rw [this] at h
  exact_mod_cast h

theorem exists_int_sum (v : List ℚ) (h : ∀ x ∈ v, ∃ z : ℤ, x = (z : ℚ)) :
    ∃ z : ℤ, v.sum = (z : ℚ) := by
  induction v with
  | nil => exact ⟨0, by simp⟩
  | cons x xs ih =>
    obtain ⟨a, ha⟩ := h x (List.mem_cons_self x xs)
    obtain ⟨b, hb⟩ := ih (fun y hy => h y (List.mem_cons_of_mem x hy))
    exact ⟨a + b, by rw [List.sum_cons, ha, hb]; push_cast; rfl⟩

theorem accumulatesExactly_of_int (v : List ℚ) (acc : ℤ)
    (hint : ∀ x ∈ v, ∃ z : ℤ, x = (z : ℚ))
    (hr : ∀ n, InIntRange ((acc : ℚ) + (v.take n).sum)) :
    AccumulatesExactly acc v ∧ ((truncatingSumFrom acc v : ℤ) : ℚ) = (acc : ℚ) + v.sum := by
  induction v generalizing acc with
  | nil => exact ⟨trivial, by simp [truncatingSumFrom]⟩
  | cons x xs ih =>
    obtain ⟨z, rfl⟩ := hint _ (List.mem_cons_self _ xs)
    have h1 : InIntRange ((acc : ℚ) + (z : ℚ)) := by simpa using hr 1
    have hcast : (acc : ℚ) + (z : ℚ) = ((acc + z : ℤ) : ℚ) := by push_cast; rfl
    have ht : truncToInt ((acc : ℚ) + (z : ℚ)) = acc + z := by
      rw [hcast]; exact truncToInt_intCast _
    have hrest := ih (acc + z) (fun y hy => hint y (List.mem_cons_of_mem _ hy)) (fun n => by
      have := hr (n + 1)
      simp only [List.take_succ_cons, List.sum_cons] at this
      rw [← hcast, add_assoc]
      exact this)
    refine ⟨⟨?_, ?_, ?_⟩, ?_⟩
    · exact isBinary64_of_int_of_abs_lt _ (acc + z) hcast
        (lt_of_le_of_lt (inIntRange_abs_le _ h1) (by norm_num))
    · rw [ht, ← hcast]; exact h1
    · rw [ht]; exact hrest.1
    · rw [truncatingSumFrom, ht, hrest.2, List.sum_cons]
      push_cast
      ring

theorem toInt32_of_lt (n : Nat) (h : n < 2 ^ 31) : toInt32 n = (n : ℤ) := by
  unfold toInt32
  have h1 : n % 2 ^ 32 = n := Nat.mod_eq_of_lt (by omega)
  rw [h1, if_pos h]

theorem RollingSumOrMean_step_STEP_END (R : Rounding) (st : RollingSumOrMean) (v : List ℚ)
    (a l : ℚ) (type : StepType) (htype : type = StepType.STEP ∨ type = StepType.END)
    (ha : v.head? = some a) (hl : v.getLast? = some l) (d : ℤ)
    (hd : toInt32 v.length - toInt32 st._prev_win_length = d) (s : ℚ)
    (hs : (if d ≤ 0 then R.fl ((if d ≥ 0 then R.fl (st._sum + l) else st._sum) - st._prev_last)
            else (if d ≥ 0 then R.fl (st._sum + l) else st._sum)) = s) :
    st.step R v type =
      some ({ st with _sum := s, _prev_last := a, _prev_win_length := v.length },
            if st._type = SumOrMeanType.MEAN then R.fl (s / R.fl (v.length : ℚ)) else s) := by
  subst hd hs
  rcases htype with rfl | rfl <;> simp only [RollingSumOrMean.step, ha, hl]

theorem getLast?_snoc (l : List ℚ) (x : ℚ) : (l ++ [x]).getLast? = some x := by
  rw [List.getLast?_eq_getLast _ (by simp)]
  simp

theorem naiveOutput_eq (R : Rounding) (type : SumOrMeanType) (v : List ℚ)
    (hv : v.length < 2 ^ 31) :
    naiveOutput R type v
      = if type = SumOrMeanType.MEAN then R.fl (v.sum / R.fl (v.length : ℚ)) else v.sum := by
  have hlen : R.fl (v.length : ℚ) = (v.length : ℚ) :=
    R.fl_exact _ (isBinary64_natCast _ (lt_trans hv (by norm_num)))
  cases type <;> simp [naiveOutput, naiveSum, naiveMean, hlen]

/-- One call of a scan: from a state that tracks the window `prev`, a `STEP` or
`END` call on a window that follows `prev` returns the naive output over the
new window and leaves a state that tracks the new window, provided the samples
and the window sums are integers within the range of `int`. -/
theorem RollingSumOrMean_step_move (R : Rounding) (st : RollingSumOrMean) (prev v : List ℚ)
    (type : StepType) (htype : type = StepType.STEP ∨ type = StepType.END) (hprev : prev ≠ [])
    (hmove : IsWindowMove prev v) (hsum : st._sum = prev.sum)
    (hlast : prev.head? = some st._prev_last) (hlen : st._prev_win_length = prev.length)
    (hp : prev.length < 2 ^ 31) (hv : v.length < 2 ^ 31)
    (hpint : ∀ x ∈ prev, ∃ z : ℤ, x = (z : ℚ)) (hvint : ∀ x ∈ v, ∃ z : ℤ, x = (z : ℚ))
    (hvr : ∀ x ∈ v, InIntRange x) (hps : InIntRange prev.sum) (hvs : InIntRange v.sum) :
    v ≠ [] ∧ ∃ st', st.step R v type = some (st', naiveOutput R st._type v) ∧
      st'._type = st._type ∧ st'._sum = v.sum ∧ v.head? = some st'._prev_last ∧
      st'._prev_win_length = v.length := by
  obtain ⟨h, t, rfl⟩ := List.exists_cons_of_ne_nil hprev
  have hh : st._prev_last = h := by simpa using hlast.symm
  have hpl : toInt32 st._prev_win_length = ((t.length + 1 : Nat) : ℤ) := by
    rw [hlen]; exact toInt32_of_lt _ hp
  have hvl : toInt32 v.length = (v.length : ℤ) := toInt32_of_lt _ hv
  obtain ⟨zv, hzv⟩ := exists_int_sum v hvint
  have hbv : IsBinary64 v.sum :=
    isBinary64_of_int_of_abs_lt _ zv hzv (lt_of_le_of_lt (inIntRange_abs_le _ hvs) (by norm_num))
  have hflv : R.fl v.sum = v.sum := R.fl_exact _ hbv
  obtain ⟨zp, hzp⟩ := exists_int_sum (h :: t) hpint
  have hmid : ∀ x ∈ v, R.fl ((h :: t).sum + x) = (h :: t).sum + x := by
    intro x hx
    obtain ⟨zx, hzx⟩ := hvint x hx
    refine R.fl_exact _ (isBinary64_of_int_of_abs_lt _ (zp + zx) (by rw [hzp, hzx]; push_cast; rfl) ?_)
    have h1 := inIntRange_abs_le _ hps
    have h2 := inIntRange_abs_le _ (hvr x hx)
    calc |(h :: t).sum + x| ≤ |(h :: t).sum| + |x| := abs_add _ _
      _ ≤ 2 ^ 31 + 2 ^ 31 := add_le_add h1 h2
      _ < 2 ^ 53 := by norm_num
  rcases hmove with ⟨x, rfl⟩ | ⟨x, rfl⟩ | ⟨hvt, hne⟩
  · -- grow: the newest sample is added
    have hx := hmid x (by simp)
    have hstep := RollingSumOrMean_step_STEP_END R st (h :: t ++ [x]) h x type htype
      (by simp) (getLast?_snoc _ x) 1 (by rw [hvl, hpl]; simp) (h :: t ++ [x]).sum
      (by rw [hsum]; simp only [show ¬ ((1 : ℤ) ≤ 0) by decide, if_false,
            show (1 : ℤ) ≥ 0 by decide, if_true]; rw [hx]; simp; ring)
    rw [← naiveOutput_eq R _ _ hv] at hstep
    exact ⟨by simp, _, hstep, rfl, rfl, by simp, rfl⟩
  · -- slide: the newest sample is added, the previous oldest subtracted
    have hx := hmid x (by simp)
    have hstep := RollingSumOrMean_step_STEP_END R st ((h :: t).tail ++ [x])
      (((h :: t).tail ++ [x]).head (by simp)) x type htype
      (List.head?_eq_head _) (getLast?_snoc _ x) 0 (by rw [hvl, hpl]; simp)
      ((h :: t).tail ++ [x]).sum
      (by
        rw [hsum, hh]
        simp only [le_refl, ge_iff_le, if_true]
        rw [hx]
        have : (h :: t).sum + x - h = ((h :: t).tail ++ [x]).sum := by simp; ring
        rw [this, hflv])
    rw [← naiveOutput_eq R _ _ hv] at hstep
    exact ⟨by simp, _, hstep, rfl, rfl, List.head?_eq_head _, rfl⟩
  · -- shrink: the previous oldest sample is subtracted
    have hvt' : v = t := by simpa using hvt
    subst hvt'
    have hstep := RollingSumOrMean_step_STEP_END R st v (v.head hne) (v.getLast hne) type htype
      (List.head?_eq_head _) (List.getLast?_eq_getLast _ _) (-1)
      (by rw [hvl, hpl]; simp) v.sum
      (by
        rw [hsum, hh]
        simp only [show ((-1 : ℤ) ≤ 0) by decide, if_true,
          show ¬ ((-1 : ℤ) ≥ 0) by decide, if_false]
        have : (h :: v).sum - h = v.sum := by simp
        rw [this, hflv])
    rw [← naiveOutput_eq R _ _ hv] at hstep
    exact ⟨hne, _, hstep, rfl, rfl, List.head?_eq_head _, rfl⟩

theorem RollingSumOrMean_run_scan (R : Rounding) (rest : List (List ℚ × StepType)) :
    ∀ (st : RollingSumOrMean) (prev : List ℚ), prev ≠ [] → IsScan prev rest →
      st._sum = prev.sum → prev.head? = some st._prev_last →
      st._prev_win_length = prev.length → prev.length < 2 ^ 31 →
      (∀ x ∈ prev, ∃ z : ℤ, x = (z : ℚ)) → InIntRange prev.sum →
      (∀ e ∈ rest, e.1.length < 2 ^ 31) →
      (∀ e ∈ rest, ∀ x ∈ e.1, ∃ z : ℤ, x = (z : ℚ)) →
      (∀ e ∈ rest, ∀ x ∈ e.1, InIntRange x) →
      (∀ e ∈ rest, InIntRange e.1.sum) →
      (st.run R rest).map Prod.snd = some (rest.map (fun e => naiveOutput R st._type e.1)) := by
  induction rest with
  | nil => intro st prev _ _ _ _ _ _ _ _ _ _ _ _; rfl
  | cons e rest ih =>
    intro st prev hprev hscan hsum hlast hlen hp hpint hps hlens hints hsamples hsums
    obtain ⟨v, type⟩ := e
    obtain ⟨htype, hmove, hrest⟩ := hscan
    have hmem : (v, type) ∈ (v, type) :: rest := List.mem_cons_self _ _
    have hv : v.length < 2 ^ 31 := hlens _ hmem
    obtain ⟨hne, st', hstep, htype', hsum', hlast', hlen'⟩ :=
      RollingSumOrMean_step_move R st prev v type htype hprev hmove hsum hlast hlen hp hv hpint
        (hints _ hmem) (hsamples _ hmem) hps (hsums _ hmem)
    have hrun := ih st' v hne hrest hsum' hlast' hlen' hv (hints _ hmem) (hsums _ hmem)
      (fun e he => hlens e (List.mem_cons_of_mem _ he))
      (fun e he => hints e (List.mem_cons_of_mem _ he))
      (fun e he => hsamples e (List.mem_cons_of_mem _ he))
      (fun e he => hsums e (List.mem_cons_of_mem _ he))
    rw [htype'] at hrun
    simp only [RollingSumOrMean.run, hstep, List.map_cons]
    cases hr : st'.run R rest with
    | none => rw [hr] at hrun; simp at hrun
    | some r =>
      rw [hr] at hrun
      simp only [Option.map_some', Option.some.injEq] at hrun
      simp [hrun]

/-- C12: on integer-valued samples, a scan of `RollingSumOrMean` that starts with
`step(START)` on a non-empty window and continues with `step(STEP)` or
`step(END)` on windows that each follow the previous one by a grow, a slide or a
shrink returns at every step the sum of the current window in SUM mode and, in
MEAN mode, that sum divided by the window length (a division of `double`s),
whichever of `STEP` and `END` each call is made with.  The quantities are within
the range of `int`: the samples, the sum of every window, the partial sums of
the first window, and the window lengths. -/
theorem RollingSumOrMean_scan_exact (R : Rounding) (self : RollingSumOrMean) (w0 : List ℚ)
    (rest : List (List ℚ × StepType)) (hne : w0 ≠ []) (hscan : IsScan w0 rest)
    (hint : ∀ e ∈ (w0, StepType.START) :: rest, ∀ x ∈ e.1, ∃ z : ℤ, x = (z : ℚ))
    (hlen : ∀ e ∈ (w0, StepType.START) :: rest, e.1.length < 2 ^ 31)
    (hsample : ∀ e ∈ (w0, StepType.START) :: rest, ∀ x ∈ e.1, InIntRange x)
    (hsums : ∀ e ∈ (w0, StepType.START) :: rest, InIntRange e.1.sum)
    (hrange : ∀ n, InIntRange (w0.take n).sum) :
    (self.run R ((w0, StepType.START) :: rest)).map Prod.snd
      = some (((w0, StepType.START) :: rest).map (fun e => naiveOutput R self._type e.1)) := by
  have hmem : (w0, StepType.START) ∈ (w0, StepType.START) :: rest := List.mem_cons_self _ _
  obtain ⟨hex, hval⟩ := accumulatesExactly_of_int w0 0 (hint _ hmem) (fun n => by
    simpa using hrange n)
  have hval' : ((truncatingSumFrom 0 w0 : ℤ) : ℚ) = w0.sum := by simpa using hval
  have hacc := accumulateInt_of_accumulatesExactly R w0 0 hex
  obtain ⟨x, xs, rfl⟩ := List.exists_cons_of_ne_nil hne
  have hrun := RollingSumOrMean_run_scan R rest
    { self with _sum := (x :: xs).sum, _prev_last := x, _prev_win_length := (x :: xs).length }
    (x :: xs) hne hscan rfl rfl rfl (hlen _ hmem) (hint _ hmem) (hsums _ hmem)
    (fun e he => hlen e (List.mem_cons_of_mem _ he))
    (fun e he => hint e (List.mem_cons_of_mem _ he))
    (fun e he => hsample e (List.mem_cons_of_mem _ he))
    (fun e he => hsums e (List.mem_cons_of_mem _ he))
  simp only [RollingSumOrMean.run, RollingSumOrMean_step_START R _ _ _ _ hacc, List.map_cons,
    hval']
  cases hr : RollingSumOrMean.run
      { self with _sum := (x :: xs).sum, _prev_last := x,
                  _prev_win_length := (x :: xs).length } R rest with
  | none => rw [hr] at hrun; simp at hrun
  | some r =>
    rw [hr] at hrun
    simp only [Option.map_some', Option.some.injEq] at hrun
    simp [hrun, naiveOutput_eq R _ _ (hlen _ hmem)]

/-- C12 on the scan `[1, 2]`, `[1, 2, 3]`, `[2, 3, 4]`, `[3, 4]`: the outputs are
`3, 6, 9, 7` in SUM mode and `3/2, 2, 3, 7/2` in MEAN mode. -/
theorem RollingSumOrMean_scan_exact_witness :
    ((RollingSumOrMean.mk SumOrMeanType.SUM 0 0 0).run Rounding.exact sampleScan).map Prod.snd
        = some [3, 6, 9, 7] ∧
      ((RollingSumOrMean.mk SumOrMeanType.MEAN 0 0 0).run Rounding.exact sampleScan).map
        Prod.snd = some [3 / 2, 2, 3, 7 / 2] := by
  have hscan : IsScan [1, 2]
      [([1, 2, 3], StepType.STEP), ([2, 3, 4], StepType.STEP), ([3, 4], StepType.END)] :=
    ⟨Or.inl rfl, Or.inl ⟨3, rfl⟩, Or.inl rfl, Or.inr (Or.inl ⟨4, rfl⟩), Or.inr rfl,
      Or.inr (Or.inr ⟨rfl, by simp⟩), trivial⟩
  have hden : ∀ e ∈ sampleScan, ∀ x ∈ e.1, x.den = 1 := by decide!
  have hint : ∀ e ∈ sampleScan, ∀ x ∈ e.1, ∃ z : ℤ, x = (z : ℚ) :=
    fun e he x hx => ⟨x.num, (Rat.coe_int_num_of_den_eq_one (hden e he x hx)).symm⟩
  have hlen : ∀ e ∈ sampleScan, e.1.length < 2 ^ 31 := by decide
  have hsample : ∀ e ∈ sampleScan, ∀ x ∈ e.1, InIntRange x := by
    intro e he x hx
    have hb : ∀ e ∈ sampleScan, ∀ x ∈ e.1, (0 : ℚ) ≤ x ∧ x ≤ 4 := by decide!
    obtain ⟨h0, h4⟩ := hb e he x hx
    exact ⟨by linarith, by linarith⟩
  have hsums : ∀ e ∈ sampleScan, InIntRange e.1.sum := by
    intro e he
    have hb : ∀ e ∈ sampleScan, (0 : ℚ) ≤ e.1.sum ∧ e.1.sum ≤ 9 := by decide!
    obtain ⟨h0, h9⟩ := hb e he
    exact ⟨by linarith, by linarith⟩
  have hrange : ∀ n, InIntRange (([1, 2] : List ℚ).take n).sum := by
    intro n
    match n with
    | 0 => norm_num [InIntRange]
    | 1 => norm_num [InIntRange]
    | n + 2 => norm_num [InIntRange]
  constructor
  · exact (RollingSumOrMean_scan_exact Rounding.exact (RollingSumOrMean.mk SumOrMeanType.SUM 0 0 0)
      [1, 2] _ (by simp) hscan hint hlen hsample hsums hrange).trans
      (by norm_num [naiveOutput, naiveSum])
  · exact (RollingSumOrMean_scan_exact Rounding.exact
      (RollingSumOrMean.mk SumOrMeanType.MEAN 0 0 0)
      [1, 2] _ (by simp) hscan hint hlen hsample hsums hrange).trans
      (by norm_num [naiveOutput, naiveMean, Rounding.exact])

/-! ### SignalSpec -/

/-- C13: for every `SignalSpec` built with a positive sampling rate `r`,
`ms_per_sample()` is `1000 / r` truncated to an integer, that is
`floor(1000 / r)`, the quotient of the integer division of `1000` by `r`; it is
`0` for every `r > 1000`. -/
theorem SignalSpec_ms_per_sample_floor (origin : SignalOrigin) (r : ℤ) (hr : 0 < r) :
    (SignalSpec.new origin r).ms_per_sample = ⌊(1000 : ℚ) / (r : ℚ)⌋ ∧
      (SignalSpec.new origin r).ms_per_sample = 1000 / r ∧
      (1000 < r → (SignalSpec.new origin r).ms_per_sample = 0) := by
  have hq : (0 : ℚ) ≤ (1000 : ℚ) / (r : ℚ) :=
    div_nonneg (by norm_num) (by exact_mod_cast hr.le)
  have hfloor : (SignalSpec.new origin r).ms_per_sample = ⌊(1000 : ℚ) / (r : ℚ)⌋ := by
    simp only [SignalSpec.ms_per_sample, SignalSpec.sampling_rate, SignalSpec.new, truncToInt,
      if_pos hq]
  have hdiv : ⌊(1000 : ℚ) / (r : ℚ)⌋ = 1000 / r := by
    obtain ⟨n, rfl⟩ : ∃ n : ℕ, r = (n : ℤ) := ⟨r.toNat, (Int.toNat_of_nonneg hr.le).symm⟩
    have h := Rat.floor_intCast_div_natCast 1000 n
    simpa using h
  refine ⟨hfloor, hfloor.trans hdiv, fun hbig => ?_⟩
  rw [hfloor, hdiv]
  exact Int.ediv_eq_zero_of_lt (by decide) hbig

/-- C13 at the sampling rates 125 Hz, 30 Hz and 1001 Hz: 8 ms, 33 ms and 0 ms. -/
theorem SignalSpec_ms_per_sample_floor_witness :
    (SignalSpec.new SignalOrigin.EEG 125).ms_per_sample = 8 ∧
      (SignalSpec.new SignalOrigin.IR_LED 30).ms_per_sample = 33 ∧
      (SignalSpec.new SignalOrigin.EEG 1001).ms_per_sample = 0 :=
  ⟨(SignalSpec_ms_per_sample_floor SignalOrigin.EEG 125 (by decide)).2.1.trans (by decide),
    (SignalSpec_ms_per_sample_floor SignalOrigin.IR_LED 30 (by decide)).2.1.trans (by decide),
    (SignalSpec_ms_per_sample_floor SignalOrigin.EEG 1001 (by decide)).2.2 (by decide)⟩

end NeuroonOpenCore
